import Mathlib

/-!
# Secret Mafia engine — shallow embedding and verification

This file embeds the core of the Secret Mafia game engine
(`textarena/envs/SecretMafia/env.py` and `textarena/utils/xml_utils.py`)
as executable Lean definitions, and proves or refutes the specification
claims about it.

Conventions of the embedding:
* Python strings are `List Char`.
* Python dicts keyed by player id are association lists preserving
  insertion order (updates keep the original position, as CPython dicts do),
  except `player_roles`, which is assigned once as `{i: pool[i] for i in range(N)}`
  and is therefore embedded as a total function `Nat → Role` together with
  the player count.
* `random.shuffle` is taken as an explicit function parameter `shfl`
  (`random.shuffle(l)` becomes `shfl l`); theorems that depend on the
  shuffle either quantify over permutation-producing `shfl` or
  instantiate it with the identity.
* Fallible Python code (uncaught `ValueError` / `IndexError` / `raise`)
  is embedded in `Except String`.
* Machine integers are `Nat`/`Int`/`Rat`; every quantity involved is far
  below any overflow boundary, and Python ints are unbounded anyway.
-/

namespace SecretMafia

/-- Python strings, modelled as character lists. -/
abbrev Chars := List Char

/-- `str.strip()` whitespace set (ASCII part; the engine's tag content is ASCII). -/
def isPySpace (c : Char) : Bool :=
  c = ' ' || c = '\t' || c = '\n' || c = '\r' || c = '\x0b' || c = '\x0c'

/-- `s.strip()`: drop leading and trailing whitespace. -/
def pyStrip (s : Chars) : Chars :=
  ((s.dropWhile isPySpace).reverse.dropWhile isPySpace).reverse

/-- Python slice `s[a:b]` (empty when `a ≥ b`, clipped at the ends). -/
def sliceBetween (s : Chars) (a b : Nat) : Chars := (s.take b).drop a

/-- All indices of `s` at which the literal pattern `pat` occurs.
`re.finditer` scans left-to-right without overlap; for the patterns used here
(`<tag>` / `</tag>` with a tag containing no `<`) occurrences can never
overlap — an overlapping occurrence would need a `<` strictly inside the
pattern — so the non-overlapping scan finds exactly these indices. -/
def findAll (pat s : Chars) : List Nat :=
  (List.range s.length).filter (fun i => pat.isPrefixOf (s.drop i))

/-- `<{tag}>` -/
def openTag (tag : Chars) : Chars := '<' :: (tag ++ ['>'])

/-- `</{tag}>` -/
def closeTag (tag : Chars) : Chars := '<' :: '/' :: (tag ++ ['>'])

/-- `parse_xml_content(text, tag, include_tags)` from `textarena/utils/xml_utils.py`:
take the *last* `<tag>` and the *last* `</tag>`, return the stripped text
between them (`None` when either list of occurrences is empty). -/
def parseXmlContent (text tag : Chars) (includeTags : Bool) : Option Chars :=
  match (findAll (openTag tag) text).getLast? with
  | none => none
  | some iOpen =>
    match (findAll (closeTag tag) text).getLast? with
    | none => none
    | some iClose =>
      let content := pyStrip (sliceBetween text (iOpen + (openTag tag).length) iClose)
      if includeTags then some (openTag tag ++ content ++ closeTag tag) else some content

/-! ## The `voting_pattern` regex

`voting_pattern = re.compile(r'.*\[(?:player\s*)?(\d+)\].*', re.IGNORECASE)`,
used via `voting_pattern.search(content)` and `int(match.group(1))`.

Semantics of `search` with this pattern (Python `re`, no DOTALL so `.` does
not match `'\n'`):
* at a candidate start position, the leading greedy `.*` walks to the end of
  the current line and backtracks, so the group captured is the *last*
  position in that line at which `\[(?:player\s*)?(\d+)\]` matches;
* `search` tries start positions left to right, so the overall result is the
  last bracket match of the earliest line that has one.
The embedding below mirrors the engine: `bracketAt` is the
`\[(?:player\s*)?(\d+)\]` sub-pattern at a fixed position (the optional
`player` branch is tried greedily first, with backtracking to the bare-digit
branch), `greedyLast` is one anchored attempt with the greedy `.*`, and
`votingSearch` advances the start position until an attempt succeeds. -/

/-- `\s` character class of Python `re` (ASCII part). -/
def isReSpace (c : Char) : Bool :=
  c = ' ' || c = '\t' || c = '\n' || c = '\r' || c = '\x0b' || c = '\x0c'

/-- Numeric value of a digit string (`int(match.group(1))`). -/
def digitsVal (ds : Chars) : Nat :=
  ds.foldl (fun a c => 10 * a + (c.toNat - '0'.toNat)) 0

/-- `(\d+)\]` at the head of `t`: maximal digit run followed by `]`. -/
def digitsBracket (t : Chars) : Option Nat :=
  let ds := t.takeWhile Char.isDigit
  if ds ≠ [] ∧ (t.drop ds.length).head? = some ']' then some (digitsVal ds) else none

/-- Case-insensitive `player` followed by `\s*` at the head of `t`. -/
def playerPrefixRest (t : Chars) : Option Chars :=
  match t with
  | c1 :: c2 :: c3 :: c4 :: c5 :: c6 :: rest =>
    if c1.toLower = 'p' ∧ c2.toLower = 'l' ∧ c3.toLower = 'a' ∧ c4.toLower = 'y'
        ∧ c5.toLower = 'e' ∧ c6.toLower = 'r' then
      some (rest.dropWhile isReSpace)
    else none
  | _ => none

/-- `\[(?:player\s*)?(\d+)\]` anchored at the head of `s`: the optional
`player\s*` branch is preferred, falling back to the bare digits. -/
def bracketAt (s : Chars) : Option Nat :=
  match s with
  | '[' :: rest =>
    (match playerPrefixRest rest with
     | some t =>
       match digitsBracket t with
       | some n => some n
       | none => digitsBracket rest
     | none => digitsBracket rest)
  | _ => none

/-- One anchored attempt of `.*\[(?:player\s*)?(\d+)\].*`: the greedy `.*`
selects the last position within the current line (it cannot cross `'\n'`)
at which the bracket sub-pattern matches. -/
def greedyLast : Chars → Option Nat → Option Nat
  | [], acc => acc
  | c :: rest, acc =>
    let acc' := match bracketAt (c :: rest) with
      | some n => some n
      | none => acc
    if c = '\n' then acc' else greedyLast rest acc'

/-- `voting_pattern.search(s)` followed by `int(match.group(1))`: try each
start position left to right. -/
def votingSearch : Chars → Option Nat
  | [] => none
  | c :: rest =>
    match greedyLast (c :: rest) none with
    | some n => some n
    | none => votingSearch rest

/-- Declarative list of the `N`s of every bracket-target occurrence of `s`,
in order of start position (used to state claims about `votingSearch`). -/
def allBracketNs : Chars → List Nat
  | [] => []
  | c :: rest => ((bracketAt (c :: rest)).toList) ++ allBracketNs rest

/-! ## Game data model (`SecretMafiaEnv`) -/

/-- The four roles. -/
inductive Role where
  | Villager | Mafia | Doctor | Detective
deriving DecidableEq, Repr

/-- The seven phase strings of `game_state["phase"]`. -/
inductive Phase where
  | nightMafiaDiscussion | nightMafia | nightDoctor | nightDetective
  | dayPrivateReflection | dayDiscussion | dayVoting
deriving DecidableEq, Repr

/-- Sender of an observation: `ta.GAME_ID` or a player id.
Modelled from the spec: the source uses raw int sentinels from
`textarena.core` (not under `src/`); the spec fixes `-1` as the game/broadcast
sentinel and a distinct debug sink, which we keep apart as constructors. -/
inductive Sender where
  | game | player (p : Nat)
deriving DecidableEq, Repr

/-- Recipient of an observation: broadcast `-1`, the `DEBUG_ID` sink, or a
player id (modelled from the spec, as for `Sender`). -/
inductive Recipient where
  | broadcast | debugSink | player (p : Nat)
deriving DecidableEq, Repr

/-- One `add_observation(from_id, to_id, message)` event. -/
structure Obs where
  sender : Sender
  recipient : Recipient
  msg : Chars
deriving DecidableEq, Repr

/-- The mutable state: the env's `game_state` dict, the env attribute
`next_player_ids`, and the parts of the core `ta.State` the env reads or
writes (current player, invalid-move flag, winners). -/
structure GameState where
  numPlayers : Nat
  phase : Phase
  dayNumber : Nat
  alivePlayers : List Nat
  playerRoles : Nat → Role
  votes : List (Nat × Nat)
  toBeEliminated : Option Nat
  killSuggestions : List (Nat × Nat)
  detectiveInspected : List Nat
  numDiscussionRounds : Nat
  currentPlayerId : Nat
  nextPlayerIds : List Nat
  preventPlayerChange : Bool
  winners : Option (List Nat)
  winReason : Option Chars
  observations : List Obs

/-- Python dict lookup `m.get(k)` on an association list. -/
def dictGet (m : List (Nat × Nat)) (k : Nat) : Option Nat :=
  (m.find? (fun p => p.1 == k)).map (·.2)

/-- Python dict store `m[k] = v`: update in place, else append (CPython dicts
keep the original insertion position on update). -/
def upsert (m : List (Nat × Nat)) (k v : Nat) : List (Nat × Nat) :=
  match m with
  | [] => [(k, v)]
  | (k', v') :: rest => if k' = k then (k, v) :: rest else (k', v') :: upsert rest k v

/-- `state.add_observation(from_id, to_id, message)`: append to the log. -/
def addObs (s : GameState) (sd : Sender) (rc : Recipient) (msg : Chars) : GameState :=
  { s with observations := s.observations ++ [⟨sd, rc, msg⟩] }

/-- `for pid in pids: state.add_observation(from_id, to_id=pid, message)`. -/
def addObsToAll (s : GameState) (sd : Sender) (pids : List Nat) (msg : Chars) : GameState :=
  pids.foldl (fun t p => addObs t sd (.player p) msg) s

/-- Modelled from the spec: core `State.set_invalid_move` (in
`textarena.core`, not under `src/`) records the error and the player retains
the turn — the env reads this back as `state.prevent_player_change`. -/
def setInvalidMove (s : GameState) : GameState :=
  { s with preventPlayerChange := true }

/-- Modelled from the spec: core `State.set_winners(player_ids, reason)` (in
`textarena.core`, not under `src/`) records winners and reason; the game is
terminal once winners are set. -/
def setWinners (s : GameState) (pids : List Nat) (reason : Chars) : GameState :=
  { s with winners := some pids, winReason := some reason }

/-- Alive Mafia members, in `player_roles` (= ascending pid) order:
`[pid for pid, role in player_roles.items() if role=="Mafia" and pid in alive_players]`. -/
def aliveMafiaPids (s : GameState) : List Nat :=
  (List.range s.numPlayers).filter
    (fun pid => s.playerRoles pid == Role.Mafia && s.alivePlayers.contains pid)

/-- Alive non-Mafia players, in ascending pid order. -/
def aliveNonMafiaPids (s : GameState) : List Nat :=
  (List.range s.numPlayers).filter
    (fun pid => s.playerRoles pid != Role.Mafia && s.alivePlayers.contains pid)

/-- All players whose role is Mafia (dead or alive). -/
def mafiaRolePids (s : GameState) : List Nat :=
  (List.range s.numPlayers).filter (fun pid => s.playerRoles pid == Role.Mafia)

/-- All players whose role is not Mafia (dead or alive). -/
def nonMafiaRolePids (s : GameState) : List Nat :=
  (List.range s.numPlayers).filter (fun pid => s.playerRoles pid != Role.Mafia)

/-- All players whose role is not Detective — note: *not* filtered by
aliveness (`env.py` line 688). -/
def nonDetectivePids (s : GameState) : List Nat :=
  (List.range s.numPlayers).filter (fun pid => s.playerRoles pid != Role.Detective)

/-- `[pid for pid, role in player_roles.items() if role=="Doctor"][0]`:
`none` models the `IndexError` when no Doctor exists. -/
def doctorPid? (s : GameState) : Option Nat :=
  ((List.range s.numPlayers).filter (fun pid => s.playerRoles pid == Role.Doctor)).head?

/-- The Detective's pid, as for `doctorPid?`. -/
def detectivePid? (s : GameState) : Option Nat :=
  ((List.range s.numPlayers).filter (fun pid => s.playerRoles pid == Role.Detective)).head?

/-- Decimal rendering of a player id inside messages. -/
def natChars (n : Nat) : Chars := (toString n).toList

/-! ## Vote evaluation and win conditions -/

/-- The `vote_counts` dict of `_evaluate_votes`: counts per target, built by
iterating `votes` in insertion order. -/
def tallyVotes (votes : List (Nat × Nat)) : List (Nat × Nat) :=
  votes.foldl (fun acc p => upsert acc p.2 ((dictGet acc p.2).getD 0 + 1)) []

/-- `max(d.values())`: `ValueError` on an empty dict. -/
def pyMaxVals (l : List (Nat × Nat)) : Except String Nat :=
  match l with
  | [] => .error "ValueError: max() arg is an empty sequence"
  | p :: rest => .ok ((rest.map (·.2)).foldl Nat.max p.2)

/-- `_evaluate_votes`: the strict-plurality target of `votes`, `None` on an
empty tally or a tie. (Here the tally is known non-empty before `max` is
taken, so no error arises; all counts are ≥ 1, making the `0` fold seed inert.) -/
def evaluateVotes (votes : List (Nat × Nat)) : Option Nat :=
  let vc := tallyVotes votes
  if vc.isEmpty then none
  else
    let maxVotes := (vc.map (·.2)).foldl Nat.max 0
    let top := (vc.filter (fun p => p.2 == maxVotes)).map (·.1)
    if 1 < top.length then none else top.head?

/-- `"The villagers win by eliminating all members of the mafia."` -/
def villageWinReason : Chars :=
  "The villagers win by eliminating all members of the mafia.".toList

/-- `"The Mafia wins by outnumbering the villagers"` -/
def mafiaWinReason : Chars :=
  "The Mafia wins by outnumbering the villagers".toList

/-- `_check_winning_conditions`. The source compares
`len(alive_mafia_members) >= len(alive_players)/2` with Python float
division; both lengths are at most 15, `a/2` is exact in binary floating
point, and the int-vs-float comparison is exact, so the test is precisely
`2 * |aliveMafia| ≥ |alive|`. Both `if`s are independent (no `elif`). -/
def checkWinningConditions (s : GameState) : GameState :=
  let aliveMafia := aliveMafiaPids s
  let s1 :=
    if aliveMafia.isEmpty then setWinners s (nonMafiaRolePids s) villageWinReason else s
  if 2 * aliveMafia.length ≥ s1.alivePlayers.length then
    setWinners s1 (mafiaRolePids s1) mafiaWinReason
  else s1

/-! ## Per-phase action handlers (`step` branches) -/

/-- XML tag per phase, `TAG_*` constants of `env.py`. -/
def tagDiscussion : Chars := "discussion".toList

/-- `TAG_VOTE` -/
def tagVote : Chars := "vote".toList

/-- `TAG_MAFIA_VOTE` -/
def tagMafiaVote : Chars := "mafia_vote".toList

/-- `TAG_MAFIA_SUGGEST` -/
def tagMafiaSuggest : Chars := "mafia_suggest".toList

/-- `TAG_PROTECT` -/
def tagProtect : Chars := "protect".toList

/-- `TAG_INVESTIGATE` -/
def tagInvestigate : Chars := "investigate".toList

/-- `TAG_REFLECT` -/
def tagReflect : Chars := "reflect".toList

/-- Register an invalid move and emit the diagnostic to the debug sink, the
shared failure shape of every handler. -/
def invalidWithDebug (s : GameState) (debugText : Chars) (action : Chars) : GameState :=
  addObs (setInvalidMove s) (.player s.currentPlayerId) .debugSink (debugText ++ action)

/-- `_day_private_reflection`: content is echoed only to the acting player. -/
def dayPrivateReflectionAct (s : GameState) (action : Chars) : GameState :=
  match parseXmlContent action tagReflect true with
  | none => invalidWithDebug s ("[DEBUG] Invalid reflection action: ".toList) action
  | some content => addObs s (.player s.currentPlayerId) (.player s.currentPlayerId) content

/-- `_day_discussion`: content is broadcast. -/
def dayDiscussionAct (s : GameState) (action : Chars) : GameState :=
  match parseXmlContent action tagDiscussion true with
  | none => invalidWithDebug s ("[DEBUG] Invalid discussion action: ".toList) action
  | some content => addObs s (.player s.currentPlayerId) .broadcast content

/-- `"[GAME] Voting Results:\n- Player V voted for Player T\n..."`. -/
def voteSummary (votes : List (Nat × Nat)) : Chars :=
  votes.foldl
    (fun acc p =>
      acc ++ "- Player ".toList ++ natChars p.1 ++ " voted for Player ".toList
        ++ natChars p.2 ++ "\n".toList)
    "[GAME] Voting Results:\n".toList

/-- `_day_voting`: record the vote (no target validation); on queue drain set
`to_be_eliminated` from the tally and broadcast the summary. -/
def dayVotingAct (s : GameState) (action : Chars) : GameState :=
  match parseXmlContent action tagVote true with
  | none => invalidWithDebug s ("[DEBUG] Invalid vote action: ".toList) action
  | some content =>
    match votingSearch content with
    | none => invalidWithDebug s ("[DEBUG] Invalid vote format: ".toList) action
    | some votedPid =>
      let s1 := { s with votes := upsert s.votes s.currentPlayerId votedPid }
      if s1.nextPlayerIds.isEmpty then
        let s2 := { s1 with toBeEliminated := evaluateVotes s1.votes }
        addObs s2 .game .broadcast (voteSummary s2.votes)
      else s1

/-- `_night_mafia`: record the vote (no target validation), echo the content
to every alive Mafia; on queue drain resolve `to_be_eliminated` — the tally's
strict plurality, else the strict plurality of `kill_suggestions`
(`max` raising `ValueError` when that dict is empty) — then clear
`kill_suggestions`. -/
def nightMafiaAct (s : GameState) (action : Chars) : Except String GameState :=
  match parseXmlContent action tagMafiaVote true with
  | none => .ok (invalidWithDebug s ("[DEBUG] Invalid mafia vote action: ".toList) action)
  | some content =>
    match votingSearch content with
    | none => .ok (invalidWithDebug s ("[DEBUG] Invalid mafia vote format: ".toList) action)
    | some votedPid =>
      let s1 := { s with votes := upsert s.votes s.currentPlayerId votedPid }
      let s2 := addObsToAll s1 (.player s1.currentPlayerId) (aliveMafiaPids s1) content
      if s2.nextPlayerIds.isEmpty then
        let s3 := { s2 with toBeEliminated := evaluateVotes s2.votes }
        match
          (if s3.toBeEliminated = none then
            match pyMaxVals s3.killSuggestions with
            | .error e => .error e
            | .ok maxSuggestions =>
              let top := (s3.killSuggestions.filter (fun p => p.2 == maxSuggestions)).map (·.1)
              if top.length = 1 then .ok { s3 with toBeEliminated := top.head? } else .ok s3
          else .ok s3 : Except String GameState)
        with
        | .error e => .error e
        | .ok s4 => .ok { s4 with killSuggestions := [] }
      else .ok s2

/-- `_night_doctor`: echo to the Doctor only; clear `to_be_eliminated` when
it equals the chosen pid. No validation of the target (it may be dead, the
Doctor themself, or out of range). -/
def nightDoctorAct (s : GameState) (action : Chars) : GameState :=
  match parseXmlContent action tagProtect true with
  | none => invalidWithDebug s ("[DEBUG] Invalid protect action: ".toList) action
  | some content =>
    match votingSearch content with
    | none => invalidWithDebug s ("[DEBUG] Invalid protect format: ".toList) action
    | some votedPid =>
      let s1 := addObs s (.player s.currentPlayerId) (.player s.currentPlayerId) content
      if s1.toBeEliminated = some votedPid then { s1 with toBeEliminated := none } else s1

/-- `"Player X is part of the Mafia"` / `"Player X is NOT part of the Mafia"`. -/
def investigateResultMsg (s : GameState) (votedPid : Nat) : Chars :=
  if (mafiaRolePids s).contains votedPid then
    "Player ".toList ++ natChars votedPid ++ " is part of the Mafia".toList
  else
    "Player ".toList ++ natChars votedPid ++ " is NOT part of the Mafia".toList

/-- `"The detective has seen an undisclosed player's role"`. -/
def vagueNotice : Chars :=
  "The detective has seen an undisclosed player".toList ++ [Char.ofNat 39] ++ "s role".toList

/-- `_night_detective`: private result to the Detective, then the vague
notice to every player whose role is not Detective — dead or alive. -/
def nightDetectiveAct (s : GameState) (action : Chars) : GameState :=
  match parseXmlContent action tagInvestigate true with
  | none => invalidWithDebug s ("[DEBUG] Invalid investigate action: ".toList) action
  | some content =>
    match votingSearch content with
    | none => invalidWithDebug s ("[DEBUG] Invalid investigate format: ".toList) action
    | some votedPid =>
      let s1 := addObs s .game (.player s.currentPlayerId) (investigateResultMsg s votedPid)
      let s2 := { s1 with detectiveInspected := s1.detectiveInspected ++ [votedPid] }
      addObsToAll s2 .game (nonDetectivePids s2) vagueNotice

/-- `_night_mafia_discussion`: echo the suggestion to every alive Mafia and
increment `kill_suggestions[target]` — no validation that the target is an
alive non-Mafia player. -/
def nightMafiaDiscussionAct (s : GameState) (action : Chars) : GameState :=
  match parseXmlContent action tagMafiaSuggest true with
  | none => invalidWithDebug s ("[DEBUG] Invalid mafia suggest action: ".toList) action
  | some content =>
    match votingSearch content with
    | none => invalidWithDebug s ("[DEBUG] Invalid mafia suggest format: ".toList) action
    | some targetPid =>
      let s1 := addObsToAll s (.player s.currentPlayerId) (aliveMafiaPids s) content
      { s1 with
        killSuggestions :=
          upsert s1.killSuggestions targetPid ((dictGet s1.killSuggestions targetPid).getD 0 + 1) }

/-! ## Phase-entry prompts (`_phase_transition_player_prompts`)

The prompt prose is long free text; the embedding keeps each prompt's
identity, its interpolated data (valid-target list, round count, tag
wrapper via `format_xml_prompt`) and, crucially, its recipients, but
abbreviates the surrounding prose — no property below depends on it. -/

/-- `f"'[{rpid}]'"` -/
def quotedBracket (p : Nat) : Chars :=
  [Char.ofNat 39, '['] ++ natChars p ++ [']', Char.ofNat 39]

/-- `", ".join(...)` over the bracketed pid list. -/
def joinTargets (pids : List Nat) : Chars :=
  List.intercalate (", ".toList) (pids.map quotedBracket)

/-- `format_xml_prompt(base_prompt, tag, instruction)` from `xml_utils.py`
(instruction prose abbreviated, tag interpolation kept). -/
def formatXmlPrompt (base tag instruction : Chars) : Chars :=
  base
    ++ "\n\nIMPORTANT: Your response MUST include content wrapped in ".toList
    ++ openTag tag ++ " tags.".toList
    ++ (if instruction.isEmpty then []
        else "\nAdditional instructions:\n".toList ++ instruction ++ "\n".toList)

/-- `"Use the format <tag>[Player X]</tag> ..."` (abbreviated). -/
def bracketFormatInstr (tag : Chars) : Chars :=
  "Use the format ".toList ++ openTag tag ++ "[Player X]".toList ++ closeTag tag

/-- Night-Mafia-Discussion entry prompt. -/
def mafiaDiscussionPrompt (validTargets : Chars) : Chars :=
  formatXmlPrompt
    ("The Night phase has begun. As Mafia members, you must silently coordinate your target.\nValid targets: ".toList
      ++ validTargets)
    tagMafiaSuggest (bracketFormatInstr tagMafiaSuggest)

/-- Night-Mafia vote entry prompt. -/
def mafiaVotePrompt (validVotes : Chars) : Chars :=
  formatXmlPrompt
    ("The voting phase has begun. Please vote who you would like to kill. Valid votes: ".toList
      ++ validVotes)
    tagMafiaVote (bracketFormatInstr tagMafiaVote)

/-- Night-Doctor entry prompt (the source's two f-strings concatenate with no
separating space before `Valid options:`). -/
def doctorPrompt (validOptions : Chars) : Chars :=
  formatXmlPrompt
    ("We are in the Night phase. Since you are the doctor, you can decide which player to save.Valid options: ".toList
      ++ validOptions)
    tagProtect (bracketFormatInstr tagProtect)

/-- Night-Detective entry prompt. -/
def detectivePrompt (validOptions : Chars) : Chars :=
  formatXmlPrompt
    ("We are in the Night phase. Since you are the detective, you can decide which player to investigate.Valid options: ".toList
      ++ validOptions)
    tagInvestigate (bracketFormatInstr tagInvestigate)

/-- Day-Private-Reflection entry prompt (prose abbreviated; it interpolates
no game data). -/
def reflectionPrompt : Chars :=
  formatXmlPrompt ("Take a moment to reflect privately:".toList) tagReflect
    ("Use the format ".toList ++ openTag tagReflect ++ "Your reflection here".toList
      ++ closeTag tagReflect)

/-- Day-Discussion entry prompt; interpolates `num_discussion_rounds` twice. -/
def dayDiscussionPrompt (rounds : Nat) : Chars :=
  formatXmlPrompt
    ("PUBLIC DISCUSSION PHASE - ALL MESSAGES WILL BE SEEN BY EVERYONE\nFor the next ".toList
      ++ natChars rounds ++ " rounds, you can converse freely. Each player will have ".toList
      ++ natChars rounds ++ " turns to discuss.".toList)
    tagDiscussion
    ("Use the format ".toList ++ openTag tagDiscussion ++ "Your message here".toList
      ++ closeTag tagDiscussion)

/-- Day-Voting entry prompt. -/
def dayVotingPrompt (validOptions : Chars) : Chars :=
  formatXmlPrompt
    ("The voting phase has began. On your turn, submit your vote for which player you want to vote out.Valid options: ".toList
      ++ validOptions)
    tagVote (bracketFormatInstr tagVote)

/-- `_phase_transition_player_prompts(new_phase)`: emit the entry prompts and
seed `next_player_ids`. `shfl` stands for `random.shuffle`. The `Except`
carries the `IndexError` of `[pid for ... if role=="Doctor"][0]` when the
role pool dropped the Doctor/Detective. Note the Night-Doctor branch's
aliveness check is commented out in the source, while the Night-Detective
branch checks aliveness and otherwise leaves `next_player_ids` unchanged. -/
def phaseTransitionPrompts (shfl : List Nat → List Nat) (newPhase : Phase) (s : GameState) :
    Except String GameState :=
  match newPhase with
  | .nightMafiaDiscussion =>
    let mafiaPids := aliveMafiaPids s
    let prompt := mafiaDiscussionPrompt (joinTargets (aliveNonMafiaPids s))
    let s1 := addObsToAll s .game mafiaPids prompt
    let m := shfl mafiaPids
    .ok { s1 with nextPlayerIds := m ++ m }
  | .nightMafia =>
    let mafiaPids := aliveMafiaPids s
    let prompt := mafiaVotePrompt (joinTargets (aliveNonMafiaPids s))
    let s1 := addObsToAll s .game mafiaPids prompt
    .ok { s1 with nextPlayerIds := shfl mafiaPids }
  | .nightDoctor =>
    match doctorPid? s with
    | none => .error "IndexError: list index out of range"
    | some dPid =>
      let validPids := (List.range s.numPlayers).filter
        (fun pid => s.playerRoles pid != Role.Doctor && s.alivePlayers.contains pid)
      let s1 := addObs s .game (.player dPid) (doctorPrompt (joinTargets validPids))
      .ok { s1 with nextPlayerIds := [dPid] }
  | .nightDetective =>
    match detectivePid? s with
    | none => .error "IndexError: list index out of range"
    | some dPid =>
      if s.alivePlayers.contains dPid then
        let validPids := (List.range s.numPlayers).filter
          (fun pid => s.playerRoles pid != Role.Detective && s.alivePlayers.contains pid)
        let s1 := addObs s .game (.player dPid) (detectivePrompt (joinTargets validPids))
        .ok { s1 with nextPlayerIds := [dPid] }
      else .ok s
  | .dayPrivateReflection =>
    let s1 := addObsToAll s .game s.alivePlayers reflectionPrompt
    .ok { s1 with nextPlayerIds := shfl s.alivePlayers }
  | .dayDiscussion =>
    let s1 := addObs s .game .broadcast (dayDiscussionPrompt s.numDiscussionRounds)
    let a := shfl s.alivePlayers
    .ok { s1 with nextPlayerIds := List.flatten (List.replicate s.numDiscussionRounds a) }
  | .dayVoting =>
    let s1 := addObs s .game .broadcast (dayVotingPrompt (joinTargets s.alivePlayers))
    .ok { s1 with nextPlayerIds := shfl s.alivePlayers }

/-! ## Phase transition and elimination finalization (`_transition_current_pid`) -/

/-- `"Player X has been eliminated during the night."` -/
def nightElimMsg (p : Nat) : Chars :=
  "Player ".toList ++ natChars p ++ " has been eliminated during the night.".toList

/-- `"No player has been eliminated during the night."` -/
def noNightElimMsg : Chars := "No player has been eliminated during the night.".toList

/-- `"Player X has been eliminated after voting."` -/
def dayElimMsg (p : Nat) : Chars :=
  "Player ".toList ++ natChars p ++ " has been eliminated after voting.".toList

/-- `"No player has been eliminated after voting."` -/
def noDayElimMsg : Chars := "No player has been eliminated after voting.".toList

/-- Night-elimination finalization (`env.py` lines 419-437), performed on the
transition into Day-Private-Reflection: announce unconditionally, remove the
victim from `alive_players` only if present (`list.remove` removes the first
occurrence; the guard makes the no-op case explicit), clear `votes` and
`to_be_eliminated`, then evaluate the win conditions. -/
def processNightElimination (s : GameState) : GameState :=
  let s1 :=
    match s.toBeEliminated with
    | none => addObs s .game .broadcast noNightElimMsg
    | some tbe =>
      let s' := { s with
        alivePlayers :=
          if s.alivePlayers.contains tbe then s.alivePlayers.erase tbe else s.alivePlayers }
      addObs s' .game .broadcast (nightElimMsg tbe)
  checkWinningConditions { s1 with votes := [], toBeEliminated := none }

/-- Day-vote elimination finalization (`env.py` lines 439-457), performed on
the transition into Night-Mafia-Discussion; identical shape to the night
case with the day announcement strings. -/
def processDayElimination (s : GameState) : GameState :=
  let s1 :=
    match s.toBeEliminated with
    | none => addObs s .game .broadcast noDayElimMsg
    | some tbe =>
      let s' := { s with
        alivePlayers :=
          if s.alivePlayers.contains tbe then s.alivePlayers.erase tbe else s.alivePlayers }
      addObs s' .game .broadcast (dayElimMsg tbe)
  checkWinningConditions { s1 with votes := [], toBeEliminated := none }

/-- The successor phase chosen by `_transition_current_pid` (the trailing
`else` fallback of the source is unreachable over the seven phases). -/
def nextPhaseOf (s : GameState) (docPid detPid : Nat) : Phase :=
  match s.phase with
  | .nightMafiaDiscussion => .nightMafia
  | .nightMafia =>
    if s.alivePlayers.contains docPid then .nightDoctor
    else if s.alivePlayers.contains detPid then .nightDetective
    else .dayPrivateReflection
  | .nightDoctor =>
    if s.alivePlayers.contains detPid then .nightDetective else .dayPrivateReflection
  | .nightDetective => .dayPrivateReflection
  | .dayPrivateReflection => .dayDiscussion
  | .dayDiscussion => .dayVoting
  | .dayVoting => .nightMafiaDiscussion

/-- `next_pid = self.next_player_ids.pop()`: Python `pop()` removes the
*last* element, which becomes the current player. -/
def popNext (s : GameState) : GameState :=
  match s.nextPlayerIds.getLast? with
  | none => s
  | some pid => { s with nextPlayerIds := s.nextPlayerIds.dropLast, currentPlayerId := pid }

/-- The elimination-processing block of `_transition_current_pid` (lines
418-457): finalize the night elimination when entering
Day-Private-Reflection, the day elimination when entering
Night-Mafia-Discussion, and otherwise change nothing. -/
def elimStep (newPhase : Phase) (s : GameState) : GameState :=
  if newPhase = .dayPrivateReflection ∧ s.phase ≠ .dayPrivateReflection then
    processNightElimination s
  else if newPhase = .nightMafiaDiscussion ∧ s.phase ≠ .nightMafiaDiscussion then
    processDayElimination s
  else s

/-- `_transition_current_pid`: return unchanged on an invalid move; with an
empty queue, pick the successor phase, finalize the pending elimination via
`elimStep`, set the phase, emit the entry prompts, and recurse while the
queue stays empty; finally pop the tail of the queue into
`current_player_id`. `fuel` bounds the recursion (the source recurses
unboundedly and would hit Python's recursion limit). -/
def transitionCurrentPid (fuel : Nat) (shfl : List Nat → List Nat) (s : GameState) :
    Except String GameState :=
  match fuel with
  | 0 => .error "RecursionError: maximum recursion depth exceeded"
  | fuel' + 1 =>
    if s.preventPlayerChange then .ok s
    else if s.nextPlayerIds.isEmpty then
      match doctorPid? s, detectivePid? s with
      | none, _ => .error "IndexError: list index out of range"
      | some _, none => .error "IndexError: list index out of range"
      | some docPid, some detPid =>
        let newPhase := nextPhaseOf s docPid detPid
        let s2 := { elimStep newPhase s with phase := newPhase }
        match phaseTransitionPrompts shfl newPhase s2 with
        | .error e => .error e
        | .ok s3 =>
          if s3.nextPlayerIds.isEmpty then transitionCurrentPid fuel' shfl s3
          else .ok (popNext s3)
    else .ok (popNext s)

/-- Modelled from the spec: core `State.step(rotate_player=False)` (in
`textarena.core`, not under `src/`) reports whether the game terminated and
re-arms the invalid-move flag so the retained player may retry. -/
def stateStep (s : GameState) : GameState × Bool :=
  ({ s with preventPlayerChange := false }, s.winners.isSome)

/-- `SecretMafiaEnv.step(action)`: dispatch on the current phase, then rotate
via `_transition_current_pid`, then the core `state.step`. -/
def stepAction (shfl : List Nat → List Nat) (fuel : Nat) (s : GameState) (action : Chars) :
    Except String (GameState × Bool) :=
  match
    (match s.phase with
     | .nightMafiaDiscussion => .ok (nightMafiaDiscussionAct s action)
     | .dayPrivateReflection => .ok (dayPrivateReflectionAct s action)
     | .dayDiscussion => .ok (dayDiscussionAct s action)
     | .dayVoting => .ok (dayVotingAct s action)
     | .nightMafia => nightMafiaAct s action
     | .nightDoctor => .ok (nightDoctorAct s action)
     | .nightDetective => .ok (nightDetectiveAct s action) : Except String GameState)
  with
  | .error e => .error e
  | .ok s1 =>
    match transitionCurrentPid fuel shfl s1 with
    | .error e => .error e
    | .ok s2 => .ok (stateStep s2)

/-! ## Reset and role assignment -/

/-- Python `round()` of the fraction `num / den` (`den > 0`): nearest
integer, ties to even (banker's rounding), written with integer arithmetic:
`f = ⌊num/den⌋`, fractional part `r = num - f·den` over `den`, compare
`2r` against `den`, and on an exact tie pick the even neighbour. The source
computes `round(num_players * mafia_ratio)` on a float; for the ratios and
counts in question (`N ≤ 15`, exactly representable ratios) the float
product is exact, so the rational model coincides. -/
def pyRound (num den : Int) : Int :=
  let f := num.fdiv den
  let r2 := 2 * (num - f * den)
  if r2 < den then f else if den < r2 then f + 1 else if f % 2 = 0 then f else f + 1

/-- `num_mafia = max(1, round(num_players * self.mafia_ratio))`; the product
`N · (p/q)` is the fraction `N·p / q`. -/
def numMafiaOf (mafiaRatio : Rat) (numPlayers : Nat) : Nat :=
  max 1 (pyRound ((numPlayers : Int) * mafiaRatio.num) (mafiaRatio.den : Int)).toNat

/-- `role_pool`: Mafia × num_mafia, one Doctor, one Detective, then
`num_players - len(role_pool)` Villagers — when that difference is negative
Python appends nothing, exactly like truncated `Nat` subtraction. There is
no feasibility check: the pool may be longer than `num_players`. -/
def rolePool (mafiaRatio : Rat) (numPlayers : Nat) : List Role :=
  List.replicate (numMafiaOf mafiaRatio numPlayers) Role.Mafia
    ++ [Role.Doctor, Role.Detective]
    ++ List.replicate (numPlayers - (numMafiaOf mafiaRatio numPlayers + 2)) Role.Villager

/-- `_assign_roles`: shuffle the pool and take `role_pool[i]` for
`i < num_players`. The pool's length is `max(num_mafia + 2, num_players) ≥
num_players`, so the indexing never faults; the `Villager` default of `getD`
is unreachable for `i < num_players` under a length-preserving shuffle. -/
def assignRoles (shflR : List Role → List Role) (mafiaRatio : Rat) (numPlayers : Nat) :
    Nat → Role :=
  fun i => (shflR (rolePool mafiaRatio numPlayers)).getD i Role.Villager

/-- Constructor configuration: `SecretMafiaEnv(mafia_ratio, discussion_rounds)`. -/
structure EnvConfig where
  mafiaRatio : Rat
  discussionRounds : Nat

/-- `reset(num_players, seed)`. The bound check models the core
`ta.State(num_players, min_players=5, max_players=15)` (modelled from the
spec: a configuration error at reset is fatal). Everything after it is from
`env.py`: roles are assigned with **no** feasibility check, and
`self.num_discussion_rounds = 2` is hardcoded (line 68), shadowing the
constructor's `discussion_rounds` for the rest of the game. The initial
role prompts produced by the core `state.reset` are not modelled (they carry
no engine state). -/
def pyReset (cfg : EnvConfig) (numPlayers : Nat) (shflR : List Role → List Role)
    (shfl : List Nat → List Nat) (fuel : Nat) : Except String GameState :=
  if numPlayers < 5 ∨ 15 < numPlayers then
    .error "ValueError: invalid number of players"
  else
    let s0 : GameState := {
      numPlayers := numPlayers
      phase := .nightMafiaDiscussion
      dayNumber := 1
      alivePlayers := List.range numPlayers
      playerRoles := assignRoles shflR cfg.mafiaRatio numPlayers
      votes := []
      toBeEliminated := none
      killSuggestions := []
      detectiveInspected := []
      numDiscussionRounds := 2
      currentPlayerId := 0
      nextPlayerIds := []
      preventPlayerChange := false
      winners := none
      winReason := none
      observations := [] }
    match phaseTransitionPrompts shfl .nightMafiaDiscussion s0 with
    | .error e => .error e
    | .ok s1 => transitionCurrentPid fuel shfl s1

/-! ## General lemmas about occurrence lists -/

/-- The literal pattern `pat` occurs in `s` at index `i` (declarative side of
`findAll`, used to *state* claims about tag extraction). -/
def OccursAt (pat s : Chars) (i : Nat) : Prop := pat.isPrefixOf (s.drop i) = true

instance (pat s : Chars) (i : Nat) : Decidable (OccursAt pat s i) := by
  unfold OccursAt
  infer_instance

/-- `i` is the *last* occurrence of `pat` in `s`. (Indices are bounded by
`s.length`; beyond it a non-empty pattern cannot occur, so the bounded
quantifier loses no generality and keeps the predicate decidable.) -/
def IsLastOcc (pat s : Chars) (i : Nat) : Prop :=
  OccursAt pat s i ∧ ∀ j ≤ s.length, OccursAt pat s j → j ≤ i

instance (pat s : Chars) (i : Nat) : Decidable (IsLastOcc pat s i) := by
  unfold IsLastOcc
  infer_instance

lemma isPrefixOf_nil_false {pat : Chars} (hp : pat ≠ []) : pat.isPrefixOf ([] : Chars) = false := by
  cases pat with
  | nil => exact absurd rfl hp
  | cons c cs => rfl

lemma occursAt_lt_length {pat s : Chars} {i : Nat} (hp : pat ≠ []) (h : OccursAt pat s i) :
    i < s.length := by
  by_contra hlt
  push_neg at hlt
  unfold OccursAt at h
  rw [List.drop_eq_nil_of_le hlt, isPrefixOf_nil_false hp] at h
  exact Bool.false_ne_true h

lemma mem_findAll {pat s : Chars} {i : Nat} :
    i ∈ findAll pat s ↔ i < s.length ∧ OccursAt pat s i := by
  simp [findAll, List.mem_filter, List.mem_range, OccursAt]

lemma findAll_pairwise (pat s : Chars) : (findAll pat s).Pairwise (· < ·) :=
  (List.pairwise_lt_range s.length).sublist (List.filter_sublist _)

lemma getLast?_mem_of_eq {l : List Nat} {a : Nat} (h : l.getLast? = some a) : a ∈ l := by
  have h' : a ∈ l.getLast? := h
  obtain ⟨hne, h2⟩ := List.mem_getLast?_eq_getLast h'
  rw [h2]
  exact List.getLast_mem hne

lemma le_getLast_of_pairwise :
    ∀ (l : List Nat), l.Pairwise (· < ·) → ∀ x ∈ l, ∀ y, l.getLast? = some y → x ≤ y := by
  intro l
  induction l with
  | nil => intro _ x hx; exact absurd hx (List.not_mem_nil x)
  | cons a t ih =>
    intro hp x hx y hy
    cases t with
    | nil =>
      simp only [List.mem_singleton] at hx
      simp only [List.getLast?_singleton, Option.some.injEq] at hy
      omega
    | cons b t2 =>
      rw [List.getLast?_cons_cons] at hy
      have hyt : y ∈ b :: t2 := getLast?_mem_of_eq hy
      rcases List.mem_cons.mp hx with rfl | hxt
      · exact le_of_lt ((List.pairwise_cons.mp hp).1 y hyt)
      · exact ih (List.pairwise_cons.mp hp).2 x hxt y hy

/-- `IsLastOcc` pins down `matches[-1]` of `re.finditer`. -/
lemma findAll_getLast_eq {pat s : Chars} {i : Nat} (hp : pat ≠ []) (h : IsLastOcc pat s i) :
    (findAll pat s).getLast? = some i := by
  obtain ⟨hocc, hub⟩ := h
  have hi : i ∈ findAll pat s := mem_findAll.mpr ⟨occursAt_lt_length hp hocc, hocc⟩
  cases hy : (findAll pat s).getLast? with
  | none =>
    rw [List.getLast?_eq_none_iff] at hy
    rw [hy] at hi
    exact absurd hi (List.not_mem_nil i)
  | some y =>
    have hymem := getLast?_mem_of_eq hy
    have ⟨hylt, hyocc⟩ := mem_findAll.mp hymem
    have h1 : y ≤ i := hub y (le_of_lt hylt) hyocc
    have h2 : i ≤ y := le_getLast_of_pairwise _ (findAll_pairwise pat s) i hi y hy
    exact congrArg some (le_antisymm h2 h1).symm

lemma findAll_eq_nil_iff {pat s : Chars} (hp : pat ≠ []) :
    (findAll pat s).getLast? = none ↔ ∀ j ≤ s.length, ¬ OccursAt pat s j := by
  rw [List.getLast?_eq_none_iff]
  constructor
  · intro hnil j _ hocc
    have : j ∈ findAll pat s := mem_findAll.mpr ⟨occursAt_lt_length hp hocc, hocc⟩
    rw [hnil] at this
    exact List.not_mem_nil j this
  · intro hno
    unfold findAll
    rw [List.filter_eq_nil_iff]
    intro a ha
    have halt := List.mem_range.mp ha
    intro hpre
    exact hno a (le_of_lt halt) hpre

lemma openTag_ne_nil (tag : Chars) : openTag tag ≠ [] := by simp [openTag]

lemma closeTag_ne_nil (tag : Chars) : closeTag tag ≠ [] := by simp [closeTag]

/-! ## C9 — tag extraction takes the content between the last `<T>` and the
last `</T>`, and fails exactly when one of them is missing -/

/-- C9: for every input string and expected tag name `T`, `parse_xml_content`
returns the trimmed content lying between the last occurrence of `<T>` and
the last occurrence of `</T>` (Python slice semantics: empty when the last
`<T>` starts after the last `</T>`), and returns `None` exactly when the
string contains no `<T>` or no `</T>`. -/
theorem c9_tag_extraction_last_occurrence (text tag : Chars) :
    (parseXmlContent text tag false = none ↔
      (∀ i ≤ text.length, ¬ OccursAt (openTag tag) text i) ∨
      (∀ j ≤ text.length, ¬ OccursAt (closeTag tag) text j)) ∧
    (∀ iO iC, IsLastOcc (openTag tag) text iO → IsLastOcc (closeTag tag) text iC →
      parseXmlContent text tag false =
        some (pyStrip (sliceBetween text (iO + (openTag tag).length) iC))) := by
  have hsome : ∀ iO iC, (findAll (openTag tag) text).getLast? = some iO →
      (findAll (closeTag tag) text).getLast? = some iC →
      parseXmlContent text tag false =
        some (pyStrip (sliceBetween text (iO + (openTag tag).length) iC)) := by
    intro iO iC hO hC
    unfold parseXmlContent
    rw [hO, hC]
    rfl
  constructor
  · constructor
    · intro hnone
      cases hO : (findAll (openTag tag) text).getLast? with
      | none => exact Or.inl ((findAll_eq_nil_iff (openTag_ne_nil tag)).mp hO)
      | some iO =>
        cases hC : (findAll (closeTag tag) text).getLast? with
        | none => exact Or.inr ((findAll_eq_nil_iff (closeTag_ne_nil tag)).mp hC)
        | some iC =>
          rw [hsome iO iC hO hC] at hnone
          exact Option.noConfusion hnone
    · intro hcase
      unfold parseXmlContent
      rcases hcase with hno | hno
      · rw [(findAll_eq_nil_iff (openTag_ne_nil tag)).mpr hno]
      · rw [(findAll_eq_nil_iff (closeTag_ne_nil tag)).mpr hno]
        cases (findAll (openTag tag) text).getLast? <;> rfl
  · intro iO iC hlastO hlastC
    exact hsome iO iC (findAll_getLast_eq (openTag_ne_nil tag) hlastO)
      (findAll_getLast_eq (closeTag_ne_nil tag) hlastC)

/-- Witness for C9 at a concrete input with duplicated tags:
`"a<v>x</v><v> y </v>"`, tag `"v"`: the last pair is selected and the
content is trimmed to `"y"`. -/
theorem c9_tag_extraction_last_occurrence_witness :
    parseXmlContent ("a<v>x</v><v> y </v>".toList) ("v".toList) false =
      some (pyStrip (sliceBetween ("a<v>x</v><v> y </v>".toList)
        (9 + (openTag ("v".toList)).length) 15)) :=
  (c9_tag_extraction_last_occurrence ("a<v>x</v><v> y </v>".toList) ("v".toList)).2 9 15
    (by decide) (by decide)

/-! ## C5 — target extraction -/

lemma allBracketNs_cons (c : Char) (rest : Chars) :
    allBracketNs (c :: rest) = (bracketAt (c :: rest)).toList ++ allBracketNs rest := rfl

lemma greedyLast_eq_getLast (s : Chars) (hnl : ∀ c ∈ s, c ≠ '\n') :
    ∀ acc, greedyLast s acc =
      match (allBracketNs s).getLast? with
      | some n => some n
      | none => acc := by
  induction s with
  | nil => intro acc; rfl
  | cons c rest ih =>
    intro acc
    have hc : c ≠ '\n' := hnl c (List.mem_cons_self c rest)
    have hrest : ∀ x ∈ rest, x ≠ '\n' := fun x hx => hnl x (List.mem_cons_of_mem c hx)
    unfold greedyLast
    rw [if_neg hc, ih hrest, allBracketNs_cons]
    cases hB : bracketAt (c :: rest) with
    | some m =>
      cases hR : (allBracketNs rest).getLast? with
      | some n =>
        rw [List.getLast?_append_of_ne_nil _
          (fun hnil => Option.noConfusion (hnil ▸ hR : ([] : List Nat).getLast? = some n)), hR]
      | none =>
        rw [List.getLast?_eq_none_iff.mp hR]
        rfl
    | none =>
      simp only [Option.toList, List.nil_append]

lemma votingSearch_eq_getLast (s : Chars) (hnl : ∀ c ∈ s, c ≠ '\n')
    (hne : allBracketNs s ≠ []) : votingSearch s = (allBracketNs s).getLast? := by
  cases s with
  | nil => exact absurd rfl hne
  | cons c rest =>
    unfold votingSearch
    rw [greedyLast_eq_getLast (c :: rest) hnl none]
    cases hR : (allBracketNs (c :: rest)).getLast? with
    | some n => rfl
    | none => exact absurd (List.getLast?_eq_none_iff.mp hR) hne

/-- C5 (amended): on newline-free tagged content containing at least one
(case-insensitive) `[player N]` / `[N]` substring, target extraction returns
the `N` of the **last** such substring, not the first. (On multi-line
content the leading greedy `.*` of `voting_pattern` cannot cross `'\n'`, so
the search resolves within the earliest line containing a match; the
newline-free hypothesis scopes the statement to the single-line case.) -/
theorem c5_target_extraction_returns_last (s : Chars) (hnl : ∀ c ∈ s, c ≠ '\n')
    (hne : allBracketNs s ≠ []) : votingSearch s = (allBracketNs s).getLast? :=
  votingSearch_eq_getLast s hnl hne

/-- Witness for C5 (amended) on `"vote [player 3] no wait [5]"`. -/
theorem c5_target_extraction_returns_last_witness :
    votingSearch ("vote [player 3] no wait [5]".toList) =
      (allBracketNs ("vote [player 3] no wait [5]".toList)).getLast? :=
  c5_target_extraction_returns_last ("vote [player 3] no wait [5]".toList)
    (by decide) (by decide)

/-- Counterexample to C5 as stated: `"[1] [2]"` contains its first match at
the front with `N = 1`, yet extraction returns `2` — the last match, not the
first. -/
theorem c5_counterexample_first_vs_last :
    (allBracketNs ("[1] [2]".toList)).head? = some 1 ∧
    votingSearch ("[1] [2]".toList) = some 2 := by
  exact ⟨rfl, rfl⟩

/-! ## C1 — the Mafia win threshold

The spec claims `|aliveMafia| ≥ |alive| / 2` under *integer* comparison, so
that 2 alive Mafia among 5 alive players suffice.  The source compares
against Python float division (`len(...)/2`), i.e. `2·|aliveMafia| ≥ |alive|`:
with 2 Mafia and 5 alive, `2 ≥ 2.5` is false and the game continues. -/

/-- Roles of the 7-player scenario (spec end-to-end scenario 2):
players 0,1 Mafia, 2 Doctor, 3 Detective, 4-6 Villagers. -/
def rolesA : Nat → Role := fun i =>
  match i with
  | 0 => .Mafia
  | 1 => .Mafia
  | 2 => .Doctor
  | 3 => .Detective
  | _ => .Villager

/-- Night 2 of scenario 2 right before win evaluation: the Detective (3) and
one Villager (6) have been eliminated, leaving 5 alive with both Mafia. -/
def sC1 : GameState := {
  numPlayers := 7
  phase := .nightMafia
  dayNumber := 2
  alivePlayers := [0, 1, 2, 4, 5]
  playerRoles := rolesA
  votes := []
  toBeEliminated := none
  killSuggestions := []
  detectiveInspected := []
  numDiscussionRounds := 2
  currentPlayerId := 0
  nextPlayerIds := []
  preventPlayerChange := false
  winners := none
  winReason := none
  observations := [] }

/-- Counterexample to C1 as stated: 2 alive Mafia, 5 alive players — the
claimed integer comparison `2 ≥ 5 / 2` holds, yet the win evaluator does not
declare Mafia the winners (the game is not terminal). -/
theorem c1_counterexample_two_mafia_five_alive :
    (aliveMafiaPids sC1).length = 2 ∧
    sC1.alivePlayers.length = 5 ∧
    (aliveMafiaPids sC1).length ≥ sC1.alivePlayers.length / 2 ∧
    (checkWinningConditions sC1).winners = none := by
  exact ⟨rfl, rfl, by decide, rfl⟩

/-- C1 (amended): the win evaluator declares Mafia the winners (winners =
all players whose role is Mafia, terminal reason recorded) exactly under the
real-valued halving `|aliveMafia| ≥ |alive| / 2`, i.e.
`2·|aliveMafia| ≥ |alive|`; parity ties at even alive counts still favor
Mafia, but 2 alive Mafia among 5 alive do **not** suffice (3 are needed). -/
theorem c1_mafia_win_condition (s : GameState) (hM : aliveMafiaPids s ≠ [])
    (hcond : 2 * (aliveMafiaPids s).length ≥ s.alivePlayers.length) :
    (checkWinningConditions s).winners = some (mafiaRolePids s) ∧
    (checkWinningConditions s).winReason = some mafiaWinReason := by
  have h1 : (aliveMafiaPids s).isEmpty = false := by
    cases h : aliveMafiaPids s with
    | nil => exact absurd h hM
    | cons a t => rfl
  simp only [checkWinningConditions, h1, Bool.false_eq_true, if_false, ge_iff_le,
    if_pos hcond, setWinners]
  exact ⟨trivial, trivial⟩

/-- Witness for C1 (amended): 2 alive Mafia among 4 alive players trigger
the Mafia win. -/
theorem c1_mafia_win_condition_witness :
    (checkWinningConditions { sC1 with alivePlayers := [0, 1, 2, 4] }).winners =
      some (mafiaRolePids { sC1 with alivePlayers := [0, 1, 2, 4] }) ∧
    (checkWinningConditions { sC1 with alivePlayers := [0, 1, 2, 4] }).winReason =
      some mafiaWinReason :=
  c1_mafia_win_condition { sC1 with alivePlayers := [0, 1, 2, 4] } (by decide) (by decide)

/-! ## C2 — handlers do not validate extracted targets

The spec claims every handler rejects non-existent, dead, or role-excluded
targets as invalid moves leaving state unchanged.  No handler in the source
checks the extracted pid at all: a Mafia suggestion pointing at a dead
player is accepted and counted. -/

/-- Roles for the 5-player states: 0 Mafia, 1 Doctor, 2 Villager,
3 Detective, 4 Villager. -/
def rolesB : Nat → Role := fun i =>
  match i with
  | 0 => .Mafia
  | 1 => .Doctor
  | 2 => .Villager
  | 3 => .Detective
  | _ => .Villager

/-- Night 2 of a 5-player game: Villager 2 was eliminated on day 1; Mafia 0
is acting in the Mafia discussion. -/
def sC2 : GameState := {
  numPlayers := 5
  phase := .nightMafiaDiscussion
  dayNumber := 2
  alivePlayers := [0, 1, 3, 4]
  playerRoles := rolesB
  votes := []
  toBeEliminated := none
  killSuggestions := []
  detectiveInspected := []
  numDiscussionRounds := 2
  currentPlayerId := 0
  nextPlayerIds := [0]
  preventPlayerChange := false
  winners := none
  winReason := none
  observations := [] }

/-- Evidence for C2 as a code bug (spec scenario 5): the suggestion
`<mafia_suggest>[player 2]</mafia_suggest>` targets the dead player 2, yet
the handler registers **no** invalid move and increments
`kill_suggestions[2]` — the opposite of the claimed rejection with
`killSuggestions` unchanged.  The doctor handler likewise accepts a
self-protect, which the game's own prompt (`"You cannot protect yourself"`)
forbids. -/
theorem c2_dead_target_accepted :
    (2 ∉ sC2.alivePlayers) ∧
    (nightMafiaDiscussionAct sC2 ("<mafia_suggest>[player 2]</mafia_suggest>".toList)).preventPlayerChange = false ∧
    (nightMafiaDiscussionAct sC2 ("<mafia_suggest>[player 2]</mafia_suggest>".toList)).killSuggestions = [(2, 1)] := by
  exact ⟨by decide, rfl, rfl⟩

/-! ## C4 — night-vote resolution and the empty-suggestion crash -/

/-- `addObsToAll` only appends the per-recipient observations. -/
lemma addObsToAll_eq (s : GameState) (sd : Sender) (pids : List Nat) (m : Chars) :
    addObsToAll s sd pids m =
      { s with observations := s.observations ++ pids.map (fun p => Obs.mk sd (.player p) m) } := by
  induction pids generalizing s with
  | nil => simp [addObsToAll]
  | cons p rest ih =>
    show addObsToAll (addObs s sd (.player p) m) sd rest m = _
    rw [ih]
    simp [addObs]

/-- The state on which the last scheduled Mafia vote arrives with an empty
`kill_suggestions` dict and a vote tally that will tie: Mafia 0 has voted for
1, Mafia 2 now votes for 3. (Unreachable in a normally played game, where
each alive Mafia registers two valid suggestions first — but nothing in the
resolution itself excludes it.) -/
def sC4 : GameState := {
  numPlayers := 5
  phase := .nightMafia
  dayNumber := 1
  alivePlayers := [0, 1, 2, 3, 4]
  playerRoles := fun i => match i with
    | 0 => .Mafia
    | 2 => .Mafia
    | 1 => .Doctor
    | 3 => .Detective
    | _ => .Villager
  votes := [(0, 1)]
  toBeEliminated := none
  killSuggestions := []
  detectiveInspected := []
  numDiscussionRounds := 2
  currentPlayerId := 2
  nextPlayerIds := []
  preventPlayerChange := false
  winners := none
  winReason := none
  observations := [] }

/-- Counterexample to C4 as stated: with tied votes and an empty
`killSuggestions`, the resolution does **not** complete normally — it
raises `ValueError` from `max()` on the empty dict, instead of yielding nil. -/
theorem c4_counterexample_empty_suggestions_crash :
    nightMafiaAct sC4 ("<mafia_vote>[3]</mafia_vote>".toList) =
      .error "ValueError: max() arg is an empty sequence" := by
  rfl

/-! ### Strict plurality: the spec-side notion and its equivalence with the
tally code -/

lemma le_foldl_max : ∀ (l : List Nat) (a : Nat), a ≤ l.foldl Nat.max a := by
  intro l
  induction l with
  | nil => intro a; exact Nat.le_refl a
  | cons x xs ih =>
    intro a
    exact le_trans (Nat.le_max_left a x) (ih (Nat.max a x))

lemma mem_le_foldl_max : ∀ (l : List Nat) (a x : Nat), x ∈ l → x ≤ l.foldl Nat.max a := by
  intro l
  induction l with
  | nil => intro a x hx; exact absurd hx (List.not_mem_nil x)
  | cons y ys ih =>
    intro a x hx
    rcases List.mem_cons.mp hx with rfl | hx2
    · exact le_trans (Nat.le_max_right a x) (le_foldl_max ys (Nat.max a x))
    · exact ih (Nat.max a y) x hx2

lemma foldl_max_mem : ∀ (l : List Nat) (a : Nat),
    l.foldl Nat.max a = a ∨ l.foldl Nat.max a ∈ l := by
  intro l
  induction l with
  | nil => intro a; exact Or.inl rfl
  | cons x xs ih =>
    intro a
    have hstep : (x :: xs).foldl Nat.max a = xs.foldl Nat.max (Nat.max a x) := rfl
    rcases ih (Nat.max a x) with h | h
    · rcases Nat.le_total a x with h2 | h2
      · exact Or.inr (by
          have hx : Nat.max a x = x := Nat.max_eq_right h2
          rw [hstep, h, hx]
          exact List.mem_cons_self x xs)
      · exact Or.inl (by
          have hx : Nat.max a x = a := Nat.max_eq_left h2
          rw [hstep, h, hx])
    · exact Or.inr (by rw [hstep]; exact List.mem_cons_of_mem x h)

lemma mem_upsert_keys : ∀ (m : List (Nat × Nat)) (k v x : Nat),
    x ∈ (upsert m k v).map Prod.fst → x ∈ m.map Prod.fst ∨ x = k := by
  intro m
  induction m with
  | nil =>
    intro k v x hx
    simp [upsert] at hx
    exact Or.inr hx
  | cons a rest ih =>
    intro k v x hx
    obtain ⟨k', v'⟩ := a
    by_cases hk : k' = k
    · rw [show upsert ((k', v') :: rest) k v = (k, v) :: rest from by
        unfold upsert; rw [if_pos hk]] at hx
      simp only [List.map_cons] at hx
      rcases List.mem_cons.mp hx with rfl | hx2
      · exact Or.inr rfl
      · exact Or.inl (by simp only [List.map_cons]; exact List.mem_cons_of_mem _ hx2)
    · rw [show upsert ((k', v') :: rest) k v = (k', v') :: upsert rest k v from by
        simp only [upsert]; rw [if_neg hk]] at hx
      simp only [List.map_cons] at hx
      rcases List.mem_cons.mp hx with rfl | hx2
      · exact Or.inl (by simp only [List.map_cons]; exact List.mem_cons_self _ _)
      · rcases ih k v x hx2 with h | h
        · exact Or.inl (by simp only [List.map_cons]; exact List.mem_cons_of_mem _ h)
        · exact Or.inr h

lemma upsert_keys_nodup : ∀ (m : List (Nat × Nat)) (k v : Nat),
    (m.map Prod.fst).Nodup → ((upsert m k v).map Prod.fst).Nodup := by
  intro m
  induction m with
  | nil => intro k v _; simp [upsert]
  | cons a rest ih =>
    intro k v hnd
    obtain ⟨k', v'⟩ := a
    simp only [List.map_cons, List.nodup_cons] at hnd
    by_cases hk : k' = k
    · rw [show upsert ((k', v') :: rest) k v = (k, v) :: rest from by
        unfold upsert; rw [if_pos hk]]
      simp only [List.map_cons, List.nodup_cons]
      exact ⟨hk ▸ hnd.1, hnd.2⟩
    · rw [show upsert ((k', v') :: rest) k v = (k', v') :: upsert rest k v from by
        simp only [upsert]; rw [if_neg hk]]
      simp only [List.map_cons, List.nodup_cons]
      refine ⟨fun hmem => ?_, ih k v hnd.2⟩
      rcases mem_upsert_keys rest k v k' hmem with h | h
      · exact hnd.1 h
      · exact hk h

/-- The targets of a vote tally are pairwise distinct (it is a dict). -/
lemma tallyVotes_keys_nodup (votes : List (Nat × Nat)) :
    ((tallyVotes votes).map Prod.fst).Nodup := by
  suffices h : ∀ (vs : List (Nat × Nat)) (acc : List (Nat × Nat)),
      (acc.map Prod.fst).Nodup →
      ((vs.foldl (fun acc p => upsert acc p.2 ((dictGet acc p.2).getD 0 + 1)) acc).map
        Prod.fst).Nodup by
    exact h votes [] (by simp)
  intro vs
  induction vs with
  | nil => intro acc h; exact h
  | cons p ps ih =>
    intro acc h
    exact ih _ (upsert_keys_nodup acc p.2 _ h)

/-- The spec's strict plurality ("a unique maximum in a tally; ties yield no
winner"), written from the spec's words as the claim-side definition: the
key of the entry whose count strictly exceeds the count of every *other*
key, when exactly one entry qualifies. -/
def strictPlurality (tally : List (Nat × Nat)) : Option Nat :=
  match tally.filter (fun p => tally.all (fun q => q.1 == p.1 || decide (q.2 < p.2))) with
  | [p] => some p.1
  | _ => none

lemma key_inj {tally : List (Nat × Nat)} (hnd : (tally.map Prod.fst).Nodup)
    {p q : Nat × Nat} (hp : p ∈ tally) (hq : q ∈ tally) (hk : p.1 = q.1) : p = q :=
  List.inj_on_of_nodup_map hnd hp hq hk

/-- The resolution code's pattern — take the maximal count `m`, keep the
keys attaining it, succeed only on a single candidate — computes exactly
the spec's strict plurality, for every tally with pairwise-distinct keys
and every `m` that is the attained maximum of the counts. -/
lemma plurality_code_eq (tally : List (Nat × Nat)) (hnd : (tally.map Prod.fst).Nodup)
    (m : Nat) (hub : ∀ q ∈ tally, q.2 ≤ m) (hmax : ∃ q ∈ tally, q.2 = m) :
    (if ((tally.filter (fun p => p.2 == m)).map (fun x => x.1)).length = 1
     then ((tally.filter (fun p => p.2 == m)).map (fun x => x.1)).head?
     else none) = strictPlurality tally := by
  have hndt : tally.Nodup := hnd.of_map
  have hmemfil : ∀ p, p ∈ tally.filter (fun p => p.2 == m) ↔ p ∈ tally ∧ p.2 = m := by
    intro p
    rw [List.mem_filter]
    constructor
    · rintro ⟨h1, h2⟩
      exact ⟨h1, by simpa using h2⟩
    · rintro ⟨h1, h2⟩
      exact ⟨h1, by simpa using h2⟩
  cases hfil : tally.filter (fun p => p.2 == m) with
  | nil =>
    exfalso
    obtain ⟨e0, he0mem, he0val⟩ := hmax
    have : e0 ∈ tally.filter (fun p => p.2 == m) := (hmemfil e0).mpr ⟨he0mem, he0val⟩
    rw [hfil] at this
    exact List.not_mem_nil e0 this
  | cons e tl =>
    have hein : e ∈ tally ∧ e.2 = m := by
      have h1 : e ∈ tally.filter (fun p => p.2 == m) := by
        rw [hfil]; exact List.mem_cons_self _ _
      exact (hmemfil e).mp h1
    cases tl with
    | nil =>
      -- exactly one attaining entry: both sides select `e`
      have huniq : ∀ p, p ∈ tally → p.2 = m → p = e := by
        intro p hp hpm
        have : p ∈ tally.filter (fun r => r.2 == m) := (hmemfil p).mpr ⟨hp, hpm⟩
        rw [hfil] at this
        rcases List.mem_cons.mp this with h | h
        · exact h
        · exact absurd h (List.not_mem_nil p)
      have hpred : ∀ p ∈ tally,
          (tally.all (fun q => q.1 == p.1 || decide (q.2 < p.2))) = (p.2 == m) := by
        intro p hp
        by_cases hpm : p.2 = m
        · have hpe : p = e := huniq p hp hpm
          subst hpe
          have hall : tally.all (fun q => q.1 == p.1 || decide (q.2 < p.2)) = true := by
            rw [List.all_eq_true]
            intro q hq
            by_cases hqm : q.2 = m
            · rw [huniq q hq hqm]
              simp
            · have hlt : q.2 < p.2 := by
                rw [hpm]
                exact lt_of_le_of_ne (hub q hq) hqm
              simp [hlt]
          rw [hall, hpm]
          simp
        · have hallf : tally.all (fun q => q.1 == p.1 || decide (q.2 < p.2)) = false := by
            rw [List.all_eq_false]
            refine ⟨e, hein.1, fun hor => ?_⟩
            rcases Bool.or_eq_true_iff.mp hor with h | h
            · have hke : e.1 = p.1 := by simpa using h
              have : e = p := key_inj hnd hein.1 hp hke
              exact hpm (this ▸ hein.2)
            · have : e.2 < p.2 := of_decide_eq_true h
              have h2 := hub p hp
              rw [hein.2] at this
              omega
          rw [hallf]
          simp [hpm]
      have hfilP : tally.filter
          (fun p => tally.all (fun q => q.1 == p.1 || decide (q.2 < p.2))) =
          tally.filter (fun p => p.2 == m) :=
        List.filter_congr (fun x hx => hpred x hx)
      unfold strictPlurality
      rw [hfilP, hfil]
      simp
    | cons e2 tl2 =>
      -- at least two attaining entries: both sides yield none
      have he2in : e2 ∈ tally ∧ e2.2 = m := by
        have h1 : e2 ∈ tally.filter (fun p => p.2 == m) := by
          rw [hfil]
          exact List.mem_cons_of_mem _ (List.mem_cons_self _ _)
        exact (hmemfil e2).mp h1
      have hne : e ≠ e2 := by
        have hndf := hndt.filter (fun p => p.2 == m)
        rw [hfil] at hndf
        intro hEq
        exact (List.nodup_cons.mp hndf).1 (hEq ▸ List.mem_cons_self e2 tl2)
      have hdominated : ∀ p ∈ tally, ∀ x, x ∈ tally → x.2 = m →
          (x.1 == p.1 || decide (x.2 < p.2)) = true → x = p := by
        intro p hp x hx hxm hor
        rcases Bool.or_eq_true_iff.mp hor with h | h
        · exact key_inj hnd hx hp (by simpa using h)
        · have : x.2 < p.2 := of_decide_eq_true h
          have h2 := hub p hp
          rw [hxm] at this
          omega
      have hfilP : tally.filter
          (fun p => tally.all (fun q => q.1 == p.1 || decide (q.2 < p.2))) = [] := by
        rw [List.filter_eq_nil_iff]
        intro p hp hP
        rw [List.all_eq_true] at hP
        have h1 : e = p := hdominated p hp e hein.1 hein.2 (hP e hein.1)
        have h2 : e2 = p := hdominated p hp e2 he2in.1 he2in.2 (hP e2 he2in.1)
        exact hne (h1.trans h2.symm)
      rw [if_neg (by simp)]
      unfold strictPlurality
      rw [hfilP]

/-- `_evaluate_votes` computes the spec's strict plurality of the vote
tally. -/
lemma evaluateVotes_eq_strictPlurality (votes : List (Nat × Nat)) :
    evaluateVotes votes = strictPlurality (tallyVotes votes) := by
  unfold evaluateVotes
  cases hvc : tallyVotes votes with
  | nil => rfl
  | cons a rest =>
    have hnd := tallyVotes_keys_nodup votes
    rw [hvc] at hnd
    have hub : ∀ q ∈ a :: rest, q.2 ≤ ((a :: rest).map (fun x => x.2)).foldl Nat.max 0 :=
      fun q hq => mem_le_foldl_max _ 0 q.2 (List.mem_map_of_mem _ hq)
    have hmax : ∃ q ∈ a :: rest, q.2 = ((a :: rest).map (fun x => x.2)).foldl Nat.max 0 := by
      rcases foldl_max_mem ((a :: rest).map (fun x => x.2)) 0 with h | h
      · refine ⟨a, List.mem_cons_self a rest, ?_⟩
        have := hub a (List.mem_cons_self a rest)
        omega
      · obtain ⟨q, hq, hq2⟩ := List.mem_map.mp h
        exact ⟨q, hq, hq2⟩
    have hpl := plurality_code_eq (a :: rest) hnd _ hub hmax
    have htopne : ((a :: rest).filter
        (fun p => p.2 == ((a :: rest).map (fun x => x.2)).foldl Nat.max 0)).map
          (fun x => x.1) ≠ [] := by
      obtain ⟨q, hq, hqm⟩ := hmax
      have hmem : q ∈ (a :: rest).filter
          (fun p => p.2 == ((a :: rest).map (fun x => x.2)).foldl Nat.max 0) :=
        List.mem_filter.mpr ⟨hq, by simpa using hqm⟩
      intro hnil
      rw [List.map_eq_nil_iff] at hnil
      rw [hnil] at hmem
      exact List.not_mem_nil q hmem
    dsimp only
    rw [if_neg (by simp)]
    rcases hlen : (((a :: rest).filter
        (fun p => p.2 == ((a :: rest).map (fun x => x.2)).foldl Nat.max 0)).map
          (fun x => x.1)).length with _ | n
    · exact absurd (List.length_eq_zero.mp hlen) htopne
    · cases n with
      | zero =>
        simp only [hlen, if_true] at hpl
        rw [if_neg (by omega)]
        exact hpl
      | succ n2 =>
        simp only [hlen] at hpl
        rw [if_neg (by omega)] at hpl
        rw [if_pos (by omega)]
        exact hpl

/-- C4 (amended): when the last scheduled Mafia vote empties the Night-Mafia
queue, the resolution completes normally (no error) and clears
`killSuggestions` whenever the vote tally has a strict plurality **or**
`killSuggestions` is non-empty, and `pendingElimination` is set exactly to
the strict-plurality target of the votes, else the strict-plurality target
of `killSuggestions` (nil on a tie). Only in the normally-unreachable case
of an empty `killSuggestions` together with a tied or empty vote tally does
it raise `ValueError` instead of yielding nil. -/
theorem c4_resolution_strict_plurality (s : GameState) (act content : Chars) (t : Nat)
    (hparse : parseXmlContent act tagMafiaVote true = some content)
    (hsearch : votingSearch content = some t)
    (hq : s.nextPlayerIds = [])
    (hksnd : (s.killSuggestions.map Prod.fst).Nodup)
    (htotal : strictPlurality (tallyVotes (upsert s.votes s.currentPlayerId t)) ≠ none ∨
      s.killSuggestions ≠ []) :
    ∃ s', nightMafiaAct s act = .ok s' ∧ s'.killSuggestions = [] ∧
      s'.toBeEliminated =
        (match strictPlurality (tallyVotes (upsert s.votes s.currentPlayerId t)) with
         | some v => some v
         | none => strictPlurality s.killSuggestions) := by
  have hev := evaluateVotes_eq_strictPlurality (upsert s.votes s.currentPlayerId t)
  unfold nightMafiaAct
  simp only [hparse, hsearch, addObsToAll_eq, hq, List.isEmpty_nil, if_true]
  cases hsp : strictPlurality (tallyVotes (upsert s.votes s.currentPlayerId t)) with
  | some v =>
    rw [hsp] at hev
    simp only [hev, reduceCtorEq, if_false]
    exact ⟨_, rfl, rfl, rfl⟩
  | none =>
    rw [hsp] at hev
    have hks : s.killSuggestions ≠ [] := by
      rcases htotal with h | h
      · exact absurd hsp h
      · exact h
    cases hk : s.killSuggestions with
    | nil => exact absurd hk hks
    | cons a rest =>
      have hmaxpy : pyMaxVals (a :: rest) = .ok ((rest.map (fun x => x.2)).foldl Nat.max a.2) :=
        rfl
      rw [hk] at hksnd
      have hub : ∀ q ∈ a :: rest, q.2 ≤ (rest.map (fun x => x.2)).foldl Nat.max a.2 := by
        intro q hq2
        rcases List.mem_cons.mp hq2 with rfl | h
        · exact le_foldl_max _ _
        · exact mem_le_foldl_max _ _ q.2 (List.mem_map_of_mem _ h)
      have hmax : ∃ q ∈ a :: rest, q.2 = (rest.map (fun x => x.2)).foldl Nat.max a.2 := by
        rcases foldl_max_mem (rest.map (fun x => x.2)) a.2 with h | h
        · exact ⟨a, List.mem_cons_self a rest, h.symm⟩
        · obtain ⟨q, hq2, hq3⟩ := List.mem_map.mp h
          exact ⟨q, List.mem_cons_of_mem a hq2, hq3⟩
      have hpl := plurality_code_eq (a :: rest) hksnd _ hub hmax
      simp only [hev, reduceIte, hmaxpy]
      by_cases hlen : (((a :: rest).filter
          (fun p => p.2 == (rest.map (fun x => x.2)).foldl Nat.max a.2)).map
            (fun x => x.1)).length = 1
      · rw [if_pos hlen] at hpl
        simp only [hlen, if_true]
        exact ⟨_, rfl, rfl, hpl⟩
      · rw [if_neg hlen] at hpl
        simp only [hlen, if_false]
        exact ⟨_, rfl, rfl, hpl⟩

/-- Witness for C4 (amended): tied votes but one strictly most-suggested
target — the resolution succeeds, clears the suggestion dict, and installs
the suggestions' strict-plurality target (player 3). -/
theorem c4_resolution_strict_plurality_witness :
    ∃ s', nightMafiaAct { sC4 with killSuggestions := [(3, 2), (1, 1)] }
      ("<mafia_vote>[3]</mafia_vote>".toList) = .ok s' ∧ s'.killSuggestions = [] ∧
      s'.toBeEliminated =
        (match strictPlurality (tallyVotes (upsert
            ({ sC4 with killSuggestions := [(3, 2), (1, 1)] } : GameState).votes
            ({ sC4 with killSuggestions := [(3, 2), (1, 1)] } : GameState).currentPlayerId 3))
          with
         | some v => some v
         | none => strictPlurality
            ({ sC4 with killSuggestions := [(3, 2), (1, 1)] } : GameState).killSuggestions) :=
  c4_resolution_strict_plurality
    { sC4 with killSuggestions := [(3, 2), (1, 1)] }
    ("<mafia_vote>[3]</mafia_vote>".toList)
    ("<mafia_vote>[3]</mafia_vote>".toList) 3 (by decide) (by decide) rfl (by decide)
    (Or.inr (by decide))

/-! ## C10 — elimination finalization is total and removes at most the victim -/

/-- The win evaluator only writes the `winners`/`winReason` fields. -/
lemma checkWinning_shape (s : GameState) :
    ∃ w r, checkWinningConditions s = { s with winners := w, winReason := r } := by
  dsimp only [checkWinningConditions, setWinners]
  split <;> split <;> exact ⟨_, _, rfl⟩

/-- Field preservation through the win evaluator. -/
lemma checkWinning_preserves (s : GameState) :
    (checkWinningConditions s).alivePlayers = s.alivePlayers ∧
    (checkWinningConditions s).observations = s.observations ∧
    (checkWinningConditions s).playerRoles = s.playerRoles ∧
    (checkWinningConditions s).numPlayers = s.numPlayers ∧
    (checkWinningConditions s).nextPlayerIds = s.nextPlayerIds ∧
    (checkWinningConditions s).phase = s.phase := by
  obtain ⟨w, r, h⟩ := checkWinning_shape s
  rw [h]
  exact ⟨rfl, rfl, rfl, rfl, rfl, rfl⟩

/-- The guarded removal `if tbe in alive: alive.remove(tbe)` equals `erase`. -/
lemma guarded_remove_eq_erase (l : List Nat) (x : Nat) :
    (if l.contains x then l.erase x else l) = l.erase x := by
  split
  · rfl
  · rename_i h
    rw [List.erase_of_not_mem (fun hm => h (List.elem_iff.mpr hm))]

/-- C10: whenever an elimination is finalized with `pendingElimination = X`
(night variant entering Day-Private-Reflection, day variant entering
Night-Mafia-Discussion), the announcement for `X` is broadcast
unconditionally, finalization never fails, and the resulting alive set is
exactly `alive \ {X}` — also when `X` is already dead or out of range, in
which case the alive set is unchanged but the announcement still goes out. -/
theorem c10_finalization_total (s : GameState) (X : Nat)
    (hX : s.toBeEliminated = some X) (hnd : s.alivePlayers.Nodup) :
    ((processNightElimination s).alivePlayers = s.alivePlayers.erase X ∧
      (∀ p, p ∈ (processNightElimination s).alivePlayers ↔ p ∈ s.alivePlayers ∧ p ≠ X) ∧
      Obs.mk .game .broadcast (nightElimMsg X) ∈ (processNightElimination s).observations) ∧
    ((processDayElimination s).alivePlayers = s.alivePlayers.erase X ∧
      (∀ p, p ∈ (processDayElimination s).alivePlayers ↔ p ∈ s.alivePlayers ∧ p ≠ X) ∧
      Obs.mk .game .broadcast (dayElimMsg X) ∈ (processDayElimination s).observations) := by
  have halive : ∀ t : GameState, t.alivePlayers = s.alivePlayers →
      (if t.alivePlayers.contains X then t.alivePlayers.erase X else t.alivePlayers) =
        s.alivePlayers.erase X := by
    intro t ht
    rw [ht, guarded_remove_eq_erase]
  constructor
  · unfold processNightElimination
    simp only [hX, addObs, guarded_remove_eq_erase]
    refine ⟨?_, ?_, ?_⟩
    · rw [(checkWinning_preserves _).1]
    · intro p
      rw [(checkWinning_preserves _).1]
      show p ∈ s.alivePlayers.erase X ↔ _
      rw [hnd.mem_erase_iff]
      exact and_comm
    · rw [(checkWinning_preserves _).2.1]
      simp
  · unfold processDayElimination
    simp only [hX, addObs, guarded_remove_eq_erase]
    refine ⟨?_, ?_, ?_⟩
    · rw [(checkWinning_preserves _).1]
    · intro p
      rw [(checkWinning_preserves _).1]
      show p ∈ s.alivePlayers.erase X ↔ _
      rw [hnd.mem_erase_iff]
      exact and_comm
    · rw [(checkWinning_preserves _).2.1]
      simp

/-- Witness for C10 at a concrete state: pending victim 3 with alive
`[0, 1, 3, 4]`. -/
theorem c10_finalization_total_witness :
    ((processNightElimination { sC2 with toBeEliminated := some 3 }).alivePlayers =
        ({ sC2 with toBeEliminated := some 3 } : GameState).alivePlayers.erase 3 ∧
      (∀ p, p ∈ (processNightElimination { sC2 with toBeEliminated := some 3 }).alivePlayers ↔
        p ∈ ({ sC2 with toBeEliminated := some 3 } : GameState).alivePlayers ∧ p ≠ 3) ∧
      Obs.mk .game .broadcast (nightElimMsg 3) ∈
        (processNightElimination { sC2 with toBeEliminated := some 3 }).observations) ∧
    ((processDayElimination { sC2 with toBeEliminated := some 3 }).alivePlayers =
        ({ sC2 with toBeEliminated := some 3 } : GameState).alivePlayers.erase 3 ∧
      (∀ p, p ∈ (processDayElimination { sC2 with toBeEliminated := some 3 }).alivePlayers ↔
        p ∈ ({ sC2 with toBeEliminated := some 3 } : GameState).alivePlayers ∧ p ≠ 3) ∧
      Obs.mk .game .broadcast (dayElimMsg 3) ∈
        (processDayElimination { sC2 with toBeEliminated := some 3 }).observations) :=
  c10_finalization_total { sC2 with toBeEliminated := some 3 } 3 rfl (by decide)

/-! ## C6 — `discussion_rounds` is configured but ignored -/

/-- Day 1 after the reflection queue drained, about to enter Day-Discussion;
`numDiscussionRounds` carries the value `2` that `reset` hardcodes. -/
def sC6 : GameState := {
  numPlayers := 5
  phase := .dayPrivateReflection
  dayNumber := 1
  alivePlayers := [0, 1, 2, 3, 4]
  playerRoles := rolesB
  votes := []
  toBeEliminated := none
  killSuggestions := []
  detectiveInspected := []
  numDiscussionRounds := 2
  currentPlayerId := 0
  nextPlayerIds := []
  preventPlayerChange := false
  winners := none
  winReason := none
  observations := [] }

/-- Evidence for C6 as a code bug: the constructor documents
`discussion_rounds` as "the number of discussion rounds", but `reset`
overwrites it with the hardcoded `self.num_discussion_rounds = 2`
(`env.py` line 68).  A game constructed with `discussion_rounds = 3`
stores `2`, and every Day-Discussion entry queue gives each alive player
exactly `2` turns, not the configured `3`. -/
theorem c6_discussion_rounds_hardcoded :
    (pyReset ⟨Rat.divInt 1 4, 3⟩ 5 id id 20).map (fun s => s.numDiscussionRounds) = .ok 2 ∧
    (phaseTransitionPrompts id .dayDiscussion sC6).map
      (fun s => (s.nextPlayerIds.count 0, s.nextPlayerIds.count 4)) = .ok (2, 2) := by
  exact ⟨rfl, rfl⟩

/-! ## C8 — reset never checks that the role pool fits -/

/-- Counterexample to C8 as stated: `mafiaRatio = 1`, `N = 5` gives
`numMafia = 5` and `N - numMafia = 0 < 2`, yet `reset` does not refuse —
role assignment proceeds and (under the identity shuffle) every player
becomes Mafia, silently dropping the Doctor and the Detective. -/
theorem c8_counterexample_infeasible_accepted :
    numMafiaOf (Rat.divInt 1 1) 5 = 5 ∧
    5 - numMafiaOf (Rat.divInt 1 1) 5 < 2 ∧
    (pyReset ⟨Rat.divInt 1 1, 3⟩ 5 id id 20).map (fun s => (List.range 5).map s.playerRoles) =
      .ok [.Mafia, .Mafia, .Mafia, .Mafia, .Mafia] := by
  exact ⟨by decide, by decide, rfl⟩

/-- C8 (amended): `reset` validates only the player-count bounds; there is
no role-pool feasibility check. Whenever `N - numMafia < 2`, role
assignment still proceeds without error: the pool
(`numMafia + 2 ≥ N` entries) covers every index `i < N`, and each player
receives the `i`-th entry of the shuffled pool — some of
Doctor/Detective/Mafia are simply dropped. -/
theorem c8_no_role_pool_check (ratio : Rat) (n : Nat) (shflR : List Role → List Role)
    (hlen : ∀ l, (shflR l).length = l.length) (hinf : n - numMafiaOf ratio n < 2)
    (i : Nat) (hi : i < n) :
    (shflR (rolePool ratio n))[i]? = some (assignRoles shflR ratio n i) := by
  have hpool : n ≤ (rolePool ratio n).length := by
    simp only [rolePool, List.length_append, List.length_replicate, List.length_cons,
      List.length_singleton]
    omega
  have hlt : i < (shflR (rolePool ratio n)).length := by
    rw [hlen]
    omega
  unfold assignRoles
  rw [List.getD_eq_getElem?_getD, List.getElem?_eq_getElem hlt]
  rfl

/-- Witness for C8 (amended) at the infeasible configuration
`ratio = 1, N = 5`, identity shuffle, index 0. -/
theorem c8_no_role_pool_check_witness :
    (id (rolePool (Rat.divInt 1 1) 5))[0]? =
      some (assignRoles id (Rat.divInt 1 1) 5 0) :=
  c8_no_role_pool_check (Rat.divInt 1 1) 5 id (fun _ => rfl) (by decide) 0 (by decide)

/-! ## C3 — the engine does not stop at terminal states -/

/-- End of day 1 of a 5-player game (0 Mafia, 1 Doctor, 3 Detective under
`rolesB`): the day vote has resolved against the lone Mafia
(`to_be_eliminated = 0`), the voting queue has drained, and the transition
is about to finalize the elimination — which declares the Village win. -/
def sC3 : GameState := {
  numPlayers := 5
  phase := .dayVoting
  dayNumber := 1
  alivePlayers := [0, 1, 2, 3, 4]
  playerRoles := rolesB
  votes := [(4, 0), (3, 0), (2, 0), (1, 0), (0, 1)]
  toBeEliminated := some 0
  killSuggestions := []
  detectiveInspected := []
  numDiscussionRounds := 2
  currentPlayerId := 0
  nextPlayerIds := []
  preventPlayerChange := false
  winners := none
  winReason := none
  observations := [] }

set_option maxRecDepth 4000 in
/-- Counterexample to C3 as stated: finalizing the day elimination declares
the Village winners (`[1, 2, 3, 4]`), yet the very same transition carries
on through Night-Mafia-Discussion and Night-Mafia into Night-Doctor, emits
the Night-Doctor entry prompt to player 1, and selects player 1 as the next
current player — entry prompts for successor phases *are* emitted and a
next current player *is* selected after the win. -/
theorem c3_counterexample_transition_continues_after_win :
    (transitionCurrentPid 6 id sC3).map
      (fun s => (s.winners, s.phase, s.currentPlayerId,
        s.observations.contains
          (Obs.mk .game (.player 1) (doctorPrompt (joinTargets [2, 3, 4]))))) =
      .ok (some [1, 2, 3, 4], .nightDoctor, 1, true) := by
  rfl

/-- C3 (amended): `_transition_current_pid` never consults the terminal
flag. Even when winners are already set, a non-empty turn queue is popped
as usual: the transition succeeds, keeps the winners, and installs the tail
of the queue as the new current player. (Termination is surfaced only by
the core `state.step` return value; the queue is not emptied on a win.) -/
theorem c3_amended_transition_ignores_terminal (fuel : Nat) (shfl : List Nat → List Nat)
    (s : GameState) (hw : s.winners.isSome = true) (hp : s.preventPlayerChange = false)
    (hq : s.nextPlayerIds ≠ []) :
    transitionCurrentPid (fuel + 1) shfl s = .ok (popNext s) ∧
    (popNext s).winners = s.winners ∧
    (∃ pid, s.nextPlayerIds.getLast? = some pid ∧ (popNext s).currentPlayerId = pid) := by
  have hne : s.nextPlayerIds.isEmpty = false := by
    cases h : s.nextPlayerIds with
    | nil => exact absurd h hq
    | cons a t => rfl
  obtain ⟨pid, hpid⟩ : ∃ pid, s.nextPlayerIds.getLast? = some pid := by
    cases h : s.nextPlayerIds.getLast? with
    | none => exact absurd (List.getLast?_eq_none_iff.mp h) hq
    | some p => exact ⟨p, rfl⟩
  refine ⟨?_, ?_, pid, hpid, ?_⟩
  · unfold transitionCurrentPid
    simp only [hp, Bool.false_eq_true, if_false, hne]
  · unfold popNext
    cases h : s.nextPlayerIds.getLast? <;> rfl
  · unfold popNext
    rw [hpid]

/-- Witness for C3 (amended): a terminal state (winners recorded) with two
queued players still pops the tail of the queue. -/
theorem c3_amended_transition_ignores_terminal_witness :
    transitionCurrentPid 1 id { sC6 with winners := some [1, 2, 3, 4], nextPlayerIds := [2, 3] } =
      .ok (popNext { sC6 with winners := some [1, 2, 3, 4], nextPlayerIds := [2, 3] }) ∧
    (popNext { sC6 with winners := some [1, 2, 3, 4], nextPlayerIds := [2, 3] }).winners =
      ({ sC6 with winners := some [1, 2, 3, 4], nextPlayerIds := [2, 3] } : GameState).winners ∧
    (∃ pid, ({ sC6 with winners := some [1, 2, 3, 4], nextPlayerIds := [2, 3] } : GameState).nextPlayerIds.getLast? = some pid ∧
      (popNext { sC6 with winners := some [1, 2, 3, 4], nextPlayerIds := [2, 3] }).currentPlayerId = pid) :=
  c3_amended_transition_ignores_terminal 0 id
    { sC6 with winners := some [1, 2, 3, 4], nextPlayerIds := [2, 3] } rfl rfl (by decide)

/-! ## C7 — observation routing

Claimed: every player-addressed observation goes to an alive player or the
originating player.  The detective handler breaks this: the vague notice is
sent to every non-Detective player, dead ones included. -/

/-- Routing discipline of a handler-emitted observation, with the
detective-notice exception (the amended form of C7). -/
def routedOk (cur : Nat) (alive : List Nat) (o : Obs) : Prop :=
  match o.recipient with
  | .player p => p ∈ alive ∨ p = cur ∨ o.msg = vagueNotice
  | _ => True

/-- Routing discipline of a phase-entry prompt: player-addressed prompts go
to alive players only. -/
def promptOk (alive : List Nat) (o : Obs) : Prop :=
  match o.recipient with
  | .player p => p ∈ alive
  | _ => True

lemma promptOk_mono {alive1 alive2 : List Nat} (hsub : ∀ p, p ∈ alive1 → p ∈ alive2)
    {o : Obs} (h : promptOk alive1 o) : promptOk alive2 o := by
  obtain ⟨sd, rc, m⟩ := o
  cases rc with
  | player p => exact hsub p h
  | broadcast => trivial
  | debugSink => trivial

lemma promptOk_routedOk {cur : Nat} {alive : List Nat} {o : Obs}
    (h : promptOk alive o) : routedOk cur alive o := by
  obtain ⟨sd, rc, m⟩ := o
  cases rc with
  | player p => exact Or.inl h
  | broadcast => trivial
  | debugSink => trivial

lemma mem_addObs {s : GameState} {sd : Sender} {rc : Recipient} {m : Chars} {o : Obs} :
    o ∈ (addObs s sd rc m).observations ↔ o ∈ s.observations ∨ o = ⟨sd, rc, m⟩ := by
  simp [addObs]

lemma mem_addObsToAll {s : GameState} {sd : Sender} {pids : List Nat} {m : Chars} {o : Obs}
    (h : o ∈ (addObsToAll s sd pids m).observations) :
    o ∈ s.observations ∨ ∃ p ∈ pids, o = ⟨sd, .player p, m⟩ := by
  rw [addObsToAll_eq] at h
  rcases List.mem_append.mp h with h1 | h2
  · exact Or.inl h1
  · obtain ⟨p, hp, rfl⟩ := List.mem_map.mp h2
    exact Or.inr ⟨p, hp, rfl⟩

lemma aliveMafiaPids_subset (s : GameState) : ∀ p ∈ aliveMafiaPids s, p ∈ s.alivePlayers := by
  intro p hp
  have h2 := (List.mem_filter.mp hp).2
  have h3 := (Bool.and_eq_true _ _).mp h2
  exact List.elem_iff.mp h3.2

lemma popNext_preserves (s : GameState) :
    (popNext s).observations = s.observations ∧ (popNext s).alivePlayers = s.alivePlayers := by
  unfold popNext
  cases s.nextPlayerIds.getLast? <;> exact ⟨rfl, rfl⟩

lemma processNightElim_props (s : GameState) :
    (∀ o ∈ (processNightElimination s).observations,
        o ∈ s.observations ∨ promptOk s.alivePlayers o) ∧
    (∀ p ∈ (processNightElimination s).alivePlayers, p ∈ s.alivePlayers) := by
  unfold processNightElimination
  cases htbe : s.toBeEliminated with
  | none =>
    constructor
    · intro o ho
      rw [(checkWinning_preserves _).2.1] at ho
      rcases mem_addObs.mp ho with h | rfl
      · exact Or.inl h
      · exact Or.inr trivial
    · intro p hp
      rw [(checkWinning_preserves _).1] at hp
      exact hp
  | some x =>
    constructor
    · intro o ho
      rw [(checkWinning_preserves _).2.1] at ho
      rcases mem_addObs.mp ho with h | rfl
      · exact Or.inl h
      · exact Or.inr trivial
    · intro p hp
      rw [(checkWinning_preserves _).1] at hp
      change p ∈ (if s.alivePlayers.contains x then s.alivePlayers.erase x
        else s.alivePlayers) at hp
      rw [guarded_remove_eq_erase] at hp
      exact List.erase_subset x s.alivePlayers hp

lemma processDayElim_props (s : GameState) :
    (∀ o ∈ (processDayElimination s).observations,
        o ∈ s.observations ∨ promptOk s.alivePlayers o) ∧
    (∀ p ∈ (processDayElimination s).alivePlayers, p ∈ s.alivePlayers) := by
  unfold processDayElimination
  cases htbe : s.toBeEliminated with
  | none =>
    constructor
    · intro o ho
      rw [(checkWinning_preserves _).2.1] at ho
      rcases mem_addObs.mp ho with h | rfl
      · exact Or.inl h
      · exact Or.inr trivial
    · intro p hp
      rw [(checkWinning_preserves _).1] at hp
      exact hp
  | some x =>
    constructor
    · intro o ho
      rw [(checkWinning_preserves _).2.1] at ho
      rcases mem_addObs.mp ho with h | rfl
      · exact Or.inl h
      · exact Or.inr trivial
    · intro p hp
      rw [(checkWinning_preserves _).1] at hp
      change p ∈ (if s.alivePlayers.contains x then s.alivePlayers.erase x
        else s.alivePlayers) at hp
      rw [guarded_remove_eq_erase] at hp
      exact List.erase_subset x s.alivePlayers hp

/-- Entry prompts are routed to alive players only, and the alive set is
untouched. The Night-Doctor branch (whose own aliveness check is commented
out in the source) needs the caller's guard as a precondition. -/
lemma prompts_props (shfl : List Nat → List Nat) (ph : Phase) (s s' : GameState)
    (hok : phaseTransitionPrompts shfl ph s = .ok s')
    (hdoc : ph = .nightDoctor → ∀ d, doctorPid? s = some d → d ∈ s.alivePlayers) :
    (∀ o ∈ s'.observations, o ∈ s.observations ∨ promptOk s.alivePlayers o) ∧
    s'.alivePlayers = s.alivePlayers := by
  cases ph with
  | nightMafiaDiscussion =>
    unfold phaseTransitionPrompts at hok
    cases hok
    constructor
    · intro o ho
      rcases mem_addObsToAll ho with h | ⟨p, hp, rfl⟩
      · exact Or.inl h
      · exact Or.inr (aliveMafiaPids_subset s p hp)
    · rw [addObsToAll_eq]
  | nightMafia =>
    unfold phaseTransitionPrompts at hok
    cases hok
    constructor
    · intro o ho
      rcases mem_addObsToAll ho with h | ⟨p, hp, rfl⟩
      · exact Or.inl h
      · exact Or.inr (aliveMafiaPids_subset s p hp)
    · rw [addObsToAll_eq]
  | nightDoctor =>
    unfold phaseTransitionPrompts at hok
    dsimp only at hok
    cases hdocpid : doctorPid? s with
    | none =>
      rw [hdocpid] at hok
      exact Except.noConfusion hok
    | some d =>
      rw [hdocpid] at hok
      cases hok
      constructor
      · intro o ho
        rcases mem_addObs.mp ho with h | rfl
        · exact Or.inl h
        · exact Or.inr (hdoc rfl d hdocpid)
      · rfl
  | nightDetective =>
    unfold phaseTransitionPrompts at hok
    dsimp only at hok
    cases hdetpid : detectivePid? s with
    | none =>
      rw [hdetpid] at hok
      exact Except.noConfusion hok
    | some d =>
      rw [hdetpid] at hok
      dsimp only at hok
      by_cases hcon : s.alivePlayers.contains d = true
      · rw [if_pos hcon] at hok
        cases hok
        constructor
        · intro o ho
          rcases mem_addObs.mp ho with h | rfl
          · exact Or.inl h
          · exact Or.inr (List.elem_iff.mp hcon)
        · rfl
      · rw [if_neg hcon] at hok
        cases hok
        exact ⟨fun o ho => Or.inl ho, rfl⟩
  | dayPrivateReflection =>
    unfold phaseTransitionPrompts at hok
    cases hok
    constructor
    · intro o ho
      rcases mem_addObsToAll ho with h | ⟨p, hp, rfl⟩
      · exact Or.inl h
      · exact Or.inr hp
    · rw [addObsToAll_eq]
  | dayDiscussion =>
    unfold phaseTransitionPrompts at hok
    cases hok
    constructor
    · intro o ho
      rcases mem_addObs.mp ho with h | rfl
      · exact Or.inl h
      · exact Or.inr trivial
    · rfl
  | dayVoting =>
    unfold phaseTransitionPrompts at hok
    cases hok
    constructor
    · intro o ho
      rcases mem_addObs.mp ho with h | rfl
      · exact Or.inl h
      · exact Or.inr trivial
    · rfl

/-- The elimination block only broadcasts and shrinks the alive set. -/
lemma elimStep_props (np : Phase) (s : GameState) :
    (∀ o ∈ (elimStep np s).observations, o ∈ s.observations ∨ promptOk s.alivePlayers o) ∧
    (∀ p, p ∈ (elimStep np s).alivePlayers → p ∈ s.alivePlayers) ∧
    (elimStep np s).playerRoles = s.playerRoles ∧
    (elimStep np s).numPlayers = s.numPlayers := by
  unfold elimStep
  split
  · exact ⟨(processNightElim_props s).1, (processNightElim_props s).2, by
      unfold processNightElimination
      cases s.toBeEliminated <;> exact (checkWinning_preserves _).2.2.1, by
      unfold processNightElimination
      cases s.toBeEliminated <;> exact (checkWinning_preserves _).2.2.2.1⟩
  · split
    · exact ⟨(processDayElim_props s).1, (processDayElim_props s).2, by
        unfold processDayElimination
        cases s.toBeEliminated <;> exact (checkWinning_preserves _).2.2.1, by
        unfold processDayElimination
        cases s.toBeEliminated <;> exact (checkWinning_preserves _).2.2.2.1⟩
    · exact ⟨fun o ho => Or.inl ho, fun p hp => hp, rfl, rfl⟩

/-- When the Night-Doctor phase is selected, no elimination is processed. -/
lemma elimStep_nightDoctor (s : GameState) : elimStep .nightDoctor s = s := by
  unfold elimStep
  rw [if_neg (by simp), if_neg (by simp)]

/-- The successor phase is Night-Doctor only when the Doctor is alive. -/
lemma nextPhase_nightDoctor_alive (s : GameState) (docPid detPid : Nat)
    (h : nextPhaseOf s docPid detPid = .nightDoctor) :
    s.alivePlayers.contains docPid = true := by
  unfold nextPhaseOf at h
  cases hph : s.phase <;> rw [hph] at h <;> dsimp only at h
  case nightMafiaDiscussion => exact absurd h (by decide)
  case nightMafia =>
    by_cases hcon : s.alivePlayers.contains docPid = true
    · exact hcon
    · rw [if_neg hcon] at h
      split at h <;> exact absurd h (by decide)
  case nightDoctor => split at h <;> exact absurd h (by decide)
  case nightDetective => exact absurd h (by decide)
  case dayPrivateReflection => exact absurd h (by decide)
  case dayDiscussion => exact absurd h (by decide)
  case dayVoting => exact absurd h (by decide)

/-- The whole phase-transition cascade only emits prompts to players alive
at the start of the cascade (or broadcasts), and only shrinks the alive
set. -/
lemma transition_props : ∀ (fuel : Nat) (shfl : List Nat → List Nat) (s s' : GameState),
    transitionCurrentPid fuel shfl s = .ok s' →
    (∀ o ∈ s'.observations, o ∈ s.observations ∨ promptOk s.alivePlayers o) ∧
    (∀ p, p ∈ s'.alivePlayers → p ∈ s.alivePlayers) := by
  intro fuel
  induction fuel with
  | zero =>
    intro shfl s s' h
    exact Except.noConfusion h
  | succ fuel ih =>
    intro shfl s s' h
    unfold transitionCurrentPid at h
    by_cases hp : s.preventPlayerChange = true
    · rw [if_pos hp] at h
      cases h
      exact ⟨fun o ho => Or.inl ho, fun p hp2 => hp2⟩
    · rw [if_neg hp] at h
      by_cases hq : s.nextPlayerIds.isEmpty = true
      · rw [if_pos hq] at h
        cases hdocpid : doctorPid? s with
        | none =>
          rw [hdocpid] at h
          exact Except.noConfusion h
        | some docPid =>
          cases hdetpid : detectivePid? s with
          | none =>
            rw [hdocpid, hdetpid] at h
            exact Except.noConfusion h
          | some detPid =>
            rw [hdocpid, hdetpid] at h
            dsimp only at h
            cases hpr : phaseTransitionPrompts shfl (nextPhaseOf s docPid detPid)
                { elimStep (nextPhaseOf s docPid detPid) s with
                  phase := nextPhaseOf s docPid detPid } with
            | error e =>
              rw [hpr] at h
              exact Except.noConfusion h
            | ok s3 =>
              rw [hpr] at h
              dsimp only at h
              -- facts about the intermediate states
              obtain ⟨helimObs, helimSub, helimRoles, helimNum⟩ :=
                elimStep_props (nextPhaseOf s docPid detPid) s
              have hdocPre : nextPhaseOf s docPid detPid = .nightDoctor →
                  ∀ d, doctorPid? { elimStep (nextPhaseOf s docPid detPid) s with
                      phase := nextPhaseOf s docPid detPid } = some d →
                    d ∈ ({ elimStep (nextPhaseOf s docPid detPid) s with
                      phase := nextPhaseOf s docPid detPid } : GameState).alivePlayers := by
                intro hnd d hd
                have he : elimStep (nextPhaseOf s docPid detPid) s = s := by
                  rw [hnd, elimStep_nightDoctor]
                have hdq : doctorPid? { elimStep (nextPhaseOf s docPid detPid) s with
                    phase := nextPhaseOf s docPid detPid } = doctorPid? s := by
                  show (((List.range (elimStep (nextPhaseOf s docPid detPid) s).numPlayers).filter
                    (fun pid => (elimStep (nextPhaseOf s docPid detPid) s).playerRoles pid ==
                      Role.Doctor))).head? = _
                  rw [helimRoles, helimNum]
                  rfl
                rw [hdq, hdocpid] at hd
                obtain rfl : docPid = d := Option.some_inj.mp hd
                show docPid ∈ (elimStep (nextPhaseOf s docPid detPid) s).alivePlayers
                rw [he]
                exact List.elem_iff.mp (nextPhase_nightDoctor_alive s docPid detPid hnd)
              obtain ⟨hpObs, hpAlive⟩ := prompts_props shfl (nextPhaseOf s docPid detPid)
                { elimStep (nextPhaseOf s docPid detPid) s with
                  phase := nextPhaseOf s docPid detPid } s3 hpr hdocPre
              have hmidObs : ∀ o ∈ s3.observations,
                  o ∈ s.observations ∨ promptOk s.alivePlayers o := by
                intro o ho
                rcases hpObs o ho with h2 | h2
                · exact helimObs o h2
                · exact Or.inr (promptOk_mono helimSub h2)
              have hmidSub : ∀ p, p ∈ s3.alivePlayers → p ∈ s.alivePlayers := by
                intro p hp3
                rw [hpAlive] at hp3
                exact helimSub p hp3
              by_cases hq3 : s3.nextPlayerIds.isEmpty = true
              · rw [if_pos hq3] at h
                obtain ⟨ihObs, ihSub⟩ := ih shfl s3 s' h
                constructor
                · intro o ho
                  rcases ihObs o ho with h2 | h2
                  · exact hmidObs o h2
                  · exact Or.inr (promptOk_mono hmidSub h2)
                · intro p hps
                  exact hmidSub p (ihSub p hps)
              · rw [if_neg hq3] at h
                cases h
                obtain ⟨hpopObs, hpopAlive⟩ := popNext_preserves s3
                constructor
                · intro o ho
                  rw [hpopObs] at ho
                  exact hmidObs o ho
                · intro p hps
                  rw [hpopAlive] at hps
                  exact hmidSub p hps
      · rw [if_neg hq] at h
        cases h
        obtain ⟨hpopObs, hpopAlive⟩ := popNext_preserves s
        constructor
        · intro o ho
          rw [hpopObs] at ho
          exact Or.inl ho
        · intro p hps
          rw [hpopAlive] at hps
          exact hps

/-- Routing discipline of a single handler run: conclusions about its new
observations, plus preservation of the alive set. -/
def HandlerOk (s t : GameState) : Prop :=
  (∀ o ∈ t.observations, o ∈ s.observations ∨ routedOk s.currentPlayerId s.alivePlayers o) ∧
  t.alivePlayers = s.alivePlayers

lemma invalidWithDebug_props (s : GameState) (d act : Chars) :
    HandlerOk s (invalidWithDebug s d act) := by
  constructor
  · intro o ho
    rcases mem_addObs.mp ho with h | rfl
    · exact Or.inl h
    · exact Or.inr trivial
  · rfl

lemma dayPrivateReflectionAct_props (s : GameState) (act : Chars) :
    HandlerOk s (dayPrivateReflectionAct s act) := by
  unfold dayPrivateReflectionAct
  cases parseXmlContent act tagReflect true with
  | none => exact invalidWithDebug_props s _ act
  | some content =>
    constructor
    · intro o ho
      rcases mem_addObs.mp ho with h | rfl
      · exact Or.inl h
      · exact Or.inr (Or.inr (Or.inl rfl))
    · rfl

lemma dayDiscussionAct_props (s : GameState) (act : Chars) :
    HandlerOk s (dayDiscussionAct s act) := by
  unfold dayDiscussionAct
  cases parseXmlContent act tagDiscussion true with
  | none => exact invalidWithDebug_props s _ act
  | some content =>
    constructor
    · intro o ho
      rcases mem_addObs.mp ho with h | rfl
      · exact Or.inl h
      · exact Or.inr trivial
    · rfl

lemma dayVotingAct_props (s : GameState) (act : Chars) :
    HandlerOk s (dayVotingAct s act) := by
  unfold dayVotingAct
  cases parseXmlContent act tagVote true with
  | none => exact invalidWithDebug_props s _ act
  | some content =>
    dsimp only
    cases votingSearch content with
    | none => exact invalidWithDebug_props s _ act
    | some voted =>
      dsimp only
      split
      · constructor
        · intro o ho
          rcases mem_addObs.mp ho with h | rfl
          · exact Or.inl h
          · exact Or.inr trivial
        · rfl
      · exact ⟨fun o ho => Or.inl ho, rfl⟩

lemma nightDoctorAct_props (s : GameState) (act : Chars) :
    HandlerOk s (nightDoctorAct s act) := by
  unfold nightDoctorAct
  cases parseXmlContent act tagProtect true with
  | none => exact invalidWithDebug_props s _ act
  | some content =>
    dsimp only
    cases votingSearch content with
    | none => exact invalidWithDebug_props s _ act
    | some voted =>
      dsimp only
      split
      · constructor
        · intro o ho
          rcases mem_addObs.mp ho with h | rfl
          · exact Or.inl h
          · exact Or.inr (Or.inr (Or.inl rfl))
        · rfl
      · constructor
        · intro o ho
          rcases mem_addObs.mp ho with h | rfl
          · exact Or.inl h
          · exact Or.inr (Or.inr (Or.inl rfl))
        · rfl

lemma nightDetectiveAct_props (s : GameState) (act : Chars) :
    HandlerOk s (nightDetectiveAct s act) := by
  unfold nightDetectiveAct
  cases parseXmlContent act tagInvestigate true with
  | none => exact invalidWithDebug_props s _ act
  | some content =>
    dsimp only
    cases votingSearch content with
    | none => exact invalidWithDebug_props s _ act
    | some voted =>
      dsimp only
      constructor
      · intro o ho
        rcases mem_addObsToAll ho with h | ⟨p, hp, rfl⟩
        · rcases mem_addObs.mp h with h2 | rfl
          · exact Or.inl h2
          · exact Or.inr (Or.inr (Or.inl rfl))
        · exact Or.inr (Or.inr (Or.inr rfl))
      · rw [addObsToAll_eq]
        rfl

lemma nightMafiaDiscussionAct_props (s : GameState) (act : Chars) :
    HandlerOk s (nightMafiaDiscussionAct s act) := by
  unfold nightMafiaDiscussionAct
  cases parseXmlContent act tagMafiaSuggest true with
  | none => exact invalidWithDebug_props s _ act
  | some content =>
    dsimp only
    cases votingSearch content with
    | none => exact invalidWithDebug_props s _ act
    | some target =>
      dsimp only
      constructor
      · intro o ho
        rcases mem_addObsToAll ho with h | ⟨p, hp, rfl⟩
        · exact Or.inl h
        · exact Or.inr (Or.inl (aliveMafiaPids_subset s p hp))
      · rw [addObsToAll_eq]

lemma nightMafiaAct_props (s : GameState) (act : Chars) (t : GameState)
    (h : nightMafiaAct s act = .ok t) : HandlerOk s t := by
  unfold nightMafiaAct at h
  cases hp : parseXmlContent act tagMafiaVote true with
  | none =>
    rw [hp] at h
    dsimp only at h
    cases h
    exact invalidWithDebug_props s _ act
  | some content =>
    rw [hp] at h
    dsimp only at h
    cases hs : votingSearch content with
    | none =>
      rw [hs] at h
      dsimp only at h
      cases h
      exact invalidWithDebug_props s _ act
    | some voted =>
      rw [hs] at h
      dsimp only at h
      rw [addObsToAll_eq] at h
      have hobs2 : ∀ o ∈ s.observations ++
          (aliveMafiaPids { s with votes := upsert s.votes s.currentPlayerId voted }).map
            (fun p => Obs.mk (Sender.player s.currentPlayerId) (Recipient.player p) content),
          o ∈ s.observations ∨ routedOk s.currentPlayerId s.alivePlayers o := by
        intro o ho
        rcases List.mem_append.mp ho with h2 | h2
        · exact Or.inl h2
        · obtain ⟨p, hp2, rfl⟩ := List.mem_map.mp h2
          exact Or.inr (Or.inl (aliveMafiaPids_subset _ p hp2))
      split at h
      · split at h
        · exact Except.noConfusion h
        · rename_i s4 heq
          cases h
          refine ⟨fun o ho => hobs2 o ?_, ?_⟩
          · -- observations of {s4 with killSuggestions := []} trace back to the append
            revert ho
            split at heq
            · split at heq
              · exact Except.noConfusion heq
              · split at heq <;> cases heq <;> exact fun ho => ho
            · cases heq
              exact fun ho => ho
          · revert heq
            split
            · split
              · exact fun heq => Except.noConfusion heq
              · split <;> (intro heq; cases heq; rfl)
            · intro heq
              cases heq
              rfl
      · cases h
        exact ⟨fun o ho => hobs2 o ho, rfl⟩

/-- Composition of a handler run and the subsequent phase transition. -/
lemma step_compose (s t s2 : GameState) (fuel : Nat) (shfl : List Nat → List Nat)
    (hH : HandlerOk s t) (htr : transitionCurrentPid fuel shfl t = .ok s2) :
    ∀ o ∈ s2.observations, o ∈ s.observations ∨ routedOk s.currentPlayerId s.alivePlayers o := by
  intro o ho
  obtain ⟨trObs, trSub⟩ := transition_props fuel shfl t s2 htr
  rcases trObs o ho with h2 | h2
  · exact hH.1 o h2
  · refine Or.inr (promptOk_routedOk (promptOk_mono ?_ h2))
    intro p hp
    rw [hH.2] at hp
    exact hp

/-- C7 (amended): after every completed turn, every engine observation whose
recipient is a specific player id (not the broadcast sentinel, not the debug
sink) is addressed to a player who was alive at the start of the turn, to
the originating player — or it is the detective's vague notice, which the
source sends to every non-Detective player *including eliminated ones*
(`env.py` line 688 filters by role only, not by aliveness). -/
theorem c7_observation_routing (shfl : List Nat → List Nat) (fuel : Nat) (s : GameState)
    (act : Chars) (r : GameState × Bool) (h : stepAction shfl fuel s act = .ok r) :
    ∀ o ∈ r.1.observations, o ∈ s.observations ∨ routedOk s.currentPlayerId s.alivePlayers o := by
  unfold stepAction at h
  cases hph : s.phase <;> rw [hph] at h <;> dsimp only at h
  case nightMafiaDiscussion =>
    cases htr : transitionCurrentPid fuel shfl (nightMafiaDiscussionAct s act) with
    | error e => rw [htr] at h; exact Except.noConfusion h
    | ok s2 =>
      rw [htr] at h
      cases h
      exact step_compose s _ s2 fuel shfl (nightMafiaDiscussionAct_props s act) htr
  case dayPrivateReflection =>
    cases htr : transitionCurrentPid fuel shfl (dayPrivateReflectionAct s act) with
    | error e => rw [htr] at h; exact Except.noConfusion h
    | ok s2 =>
      rw [htr] at h
      cases h
      exact step_compose s _ s2 fuel shfl (dayPrivateReflectionAct_props s act) htr
  case dayDiscussion =>
    cases htr : transitionCurrentPid fuel shfl (dayDiscussionAct s act) with
    | error e => rw [htr] at h; exact Except.noConfusion h
    | ok s2 =>
      rw [htr] at h
      cases h
      exact step_compose s _ s2 fuel shfl (dayDiscussionAct_props s act) htr
  case dayVoting =>
    cases htr : transitionCurrentPid fuel shfl (dayVotingAct s act) with
    | error e => rw [htr] at h; exact Except.noConfusion h
    | ok s2 =>
      rw [htr] at h
      cases h
      exact step_compose s _ s2 fuel shfl (dayVotingAct_props s act) htr
  case nightMafia =>
    cases hact : nightMafiaAct s act with
    | error e => rw [hact] at h; exact Except.noConfusion h
    | ok t =>
      rw [hact] at h
      dsimp only at h
      cases htr : transitionCurrentPid fuel shfl t with
      | error e => rw [htr] at h; exact Except.noConfusion h
      | ok s2 =>
        rw [htr] at h
        cases h
        exact step_compose s t s2 fuel shfl (nightMafiaAct_props s act t hact) htr
  case nightDoctor =>
    cases htr : transitionCurrentPid fuel shfl (nightDoctorAct s act) with
    | error e => rw [htr] at h; exact Except.noConfusion h
    | ok s2 =>
      rw [htr] at h
      cases h
      exact step_compose s _ s2 fuel shfl (nightDoctorAct_props s act) htr
  case nightDetective =>
    cases htr : transitionCurrentPid fuel shfl (nightDetectiveAct s act) with
    | error e => rw [htr] at h; exact Except.noConfusion h
    | ok s2 =>
      rw [htr] at h
      cases h
      exact step_compose s _ s2 fuel shfl (nightDetectiveAct_props s act) htr

/-- Night 2 of a 5-player game under `rolesC7` (0 Mafia, 2 Doctor,
3 Detective): Villager 4 is dead, the Detective (3) is investigating. -/
def rolesC7 : Nat → Role := fun i =>
  match i with
  | 0 => .Mafia
  | 2 => .Doctor
  | 3 => .Detective
  | _ => .Villager

/-- State for the C7 counterexample. -/
def sC7 : GameState := {
  numPlayers := 5
  phase := .nightDetective
  dayNumber := 2
  alivePlayers := [0, 1, 2, 3]
  playerRoles := rolesC7
  votes := []
  toBeEliminated := none
  killSuggestions := []
  detectiveInspected := []
  numDiscussionRounds := 2
  currentPlayerId := 3
  nextPlayerIds := []
  preventPlayerChange := false
  winners := none
  winReason := none
  observations := [] }

set_option maxRecDepth 4000 in
/-- Counterexample to C7 as stated: a completed detective turn emits the
vague notice to the eliminated player 4 (`to = 4` is a specific player id,
4 is not alive, and 4 is not the originating player 3). -/
theorem c7_counterexample_notice_to_dead_player :
    (4 ∉ sC7.alivePlayers) ∧ sC7.currentPlayerId = 3 ∧
    (stepAction id 5 sC7 ("<investigate>[0]</investigate>".toList)).map
      (fun r => r.1.observations.contains (Obs.mk .game (.player 4) vagueNotice)) = .ok true := by
  exact ⟨by decide, rfl, rfl⟩

/-- The concrete result of the detective turn used by the C7 witness. -/
def c7wRes : GameState × Bool :=
  match stepAction id 5 sC7 ("<investigate>[0]</investigate>".toList) with
  | .ok r => r
  | .error _ => (sC7, false)

set_option maxRecDepth 4000 in
/-- Witness for C7 (amended): the notice to the dead player 4 emitted during
the concrete detective turn satisfies the amended routing discipline (via
its vague-notice exception). -/
theorem c7_observation_routing_witness :
    Obs.mk .game (.player 4) vagueNotice ∈ sC7.observations ∨
      routedOk sC7.currentPlayerId sC7.alivePlayers (Obs.mk .game (.player 4) vagueNotice) :=
  c7_observation_routing id 5 sC7 ("<investigate>[0]</investigate>".toList) c7wRes
    (by rfl) (Obs.mk .game (.player 4) vagueNotice) (by decide)

end SecretMafia
